import Mathlib

/-!
Verification development for the AstroBalance CosmWasm vault contract
(`contracts-cosmwasm/astrobalance/src`).

The contract is shallowly embedded: `Uint128` values are modelled as `Nat`
(the contract's arithmetic either cannot overflow `u128` on the paths the
theorems speak about, or aborts on overflow, which is modelled by the
`ContractError.Panic` variant via `checkedSub`); `Decimal` values are
modelled by their atomics, i.e. the numerator of the fixed-point fraction
with denominator `10^18` (`DECIMAL_FRACTIONAL`); `Decimal` and
`Uint128::multiply_ratio` arithmetic floors, exactly as in `cosmwasm_std`.
Storage (`Item`/`Map` of `cw_storage_plus`) is modelled by a record of
association lists, and every execute entry point is a pure function from
contract state (plus message context) to `Except ContractError
(state × outbound messages)`.  External querier results (the Astroport
swap simulation) enter as an explicit oracle function `sim`.
-/

deriving instance DecidableEq for Except

namespace AstroBalance

/-- `Decimal::DECIMAL_FRACTIONAL`: one unit in atomics (`10^18`). -/
def DECIMAL_FRACTIONAL : Nat := 1000000000000000000

/-- `Decimal::one()`, as atomics. -/
def decimalOne : Nat := DECIMAL_FRACTIONAL

/-- `Decimal` multiplication (`a * b`), flooring at 18 fractional digits. -/
def decMul (a b : Nat) : Nat := a * b / DECIMAL_FRACTIONAL

/-- `Decimal` division (`a / b`), flooring at 18 fractional digits.
The Rust panics when `b = 0`; callers in this development only divide by
values they have checked to be nonzero. -/
def decDiv (a b : Nat) : Nat := a * DECIMAL_FRACTIONAL / b

/-- `Decimal::from_ratio(n, d)` as atomics: `⌊n * 10^18 / d⌋`.
The Rust panics when `d = 0`; callers model that case explicitly. -/
def decFromRatio (n d : Nat) : Nat := n * DECIMAL_FRACTIONAL / d

/-- `Uint128::multiply_ratio(x, num, den)`: `⌊x * num / den⌋` (computed in
256-bit in Rust, so the intermediate product cannot overflow). -/
def mulRatio (x num den : Nat) : Nat := x * num / den

/-- `Uint128` subtraction, which panics on underflow in `cosmwasm_std`:
modelled as `none` on underflow. -/
def checkedSub (a b : Nat) : Option Nat :=
  if b ≤ a then some (a - b) else none

/-! ## Data model (`state.rs`) -/

/-- `state::Config`. Addresses are modelled as strings. -/
structure Config where
  admin : String
  ai_operator : String
  base_denom : String
  accepted_denoms : List String
  astroport_router : String
deriving Repr, DecidableEq

/-- `state::RiskParameters`; all four fields are `Decimal` atomics. -/
structure RiskParameters where
  max_allocation_per_protocol : Nat
  max_slippage : Nat
  rebalance_threshold : Nat
  emergency_withdrawal_fee : Nat
deriving Repr, DecidableEq

/-- `state::UserDeposit`. The block timestamp is modelled as a `Nat`. -/
structure UserDeposit where
  original_token : String
  original_amount : Nat
  usdc_value_at_deposit : Nat
  timestamp : Nat
deriving Repr, DecidableEq

/-- `state::UserInfo`. -/
structure UserInfo where
  total_usdc_value : Nat
  deposits : List UserDeposit
deriving Repr, DecidableEq

/-- The default `UserInfo` substituted by `may_load(..).unwrap_or(..)`. -/
def emptyUserInfo : UserInfo := { total_usdc_value := 0, deposits := [] }

/-- `state::ProtocolInfo`; `allocation_percentage` is `Decimal` atomics. -/
structure ProtocolInfo where
  name : String
  contract_addr : String
  allocation_percentage : Nat
  current_balance : Nat
  enabled : Bool
deriving Repr, DecidableEq

/-- `state::RebalanceRecord`. -/
structure RebalanceRecord where
  timestamp : Nat
  initiated_by : String
  old_allocations : List (String × Nat)
  new_allocations : List (String × Nat)
  reason : String
deriving Repr, DecidableEq

/-- The whole ledger: `CONFIG`, `RISK_PARAMETERS`, `USER_INFOS`,
`PROTOCOLS`, `TOTAL_USDC_VALUE` and `REBALANCE_HISTORY` of `state.rs`.
The two `Map`s are modelled as association lists with unique keys; the
list order stands for the storage iteration order (`Order::Ascending`).
No theorem in this file depends on a particular ordering of the lists. -/
structure ContractState where
  config : Config
  risk_parameters : RiskParameters
  user_infos : List (String × UserInfo)
  protocols : List (String × ProtocolInfo)
  total_usdc_value : Nat
  rebalance_history : List RebalanceRecord
deriving Repr, DecidableEq

/-- `error::ContractError` (the variants reachable in this model), plus
`Panic`, which stands for a Rust panic (`Uint128` under/overflow or a
zero `Decimal` denominator) — a panic aborts the whole transaction. -/
inductive ContractError where
  | Std (msg : String)
  | Unauthorized
  | InvalidAmount
  | InsufficientFunds
  | NoFunds
  | UnsupportedDenom (denom : String)
  | MultipleDenoms
  | ExcessiveAllocation
  | ProtocolNotFound (name : String)
  | ProtocolAlreadyExists (name : String)
  | InvalidAllocations
  | ConversionError (error : String)
  | Panic (msg : String)
deriving Repr, DecidableEq

/-- Outbound instructions produced by the contract.  `bankSend` is
`CosmosMsg::Bank(BankMsg::Send)` with a single coin; `swap` is the
`WasmMsg::Execute` on the Astroport router carrying
`ExecuteSwapOperations { minimum_receive }`; `protocolDeposit` /
`protocolWithdraw` are the single `WasmMsg::Execute` each protocol
adapter's `deposit` / `withdraw` returns (`protocols.rs`). -/
inductive CosmosMsg where
  | bankSend (to_address denom : String) (amount : Nat)
  | swap (contract_addr offer_denom ask_denom : String)
      (offer_amount minimum_receive : Nat)
  | protocolDeposit (protocol_name contract_addr : String) (amount : Nat)
  | protocolWithdraw (protocol_name contract_addr : String) (amount : Nat)
deriving Repr, DecidableEq

/-- `MessageInfo`: sender plus attached funds (denom, amount) pairs. -/
structure MessageInfo where
  sender : String
  funds : List (String × Nat)
deriving Repr, DecidableEq

/-- The parts of `Env` the contract reads. -/
structure Env where
  contract_address : String
  block_time : Nat
deriving Repr, DecidableEq

/-! ## Association-list storage primitives -/

/-- `Map::may_load`: first binding of `k`, if any. -/
def lookupKV {α : Type} (l : List (String × α)) (k : String) : Option α :=
  match l with
  | [] => none
  | (k₁, v₁) :: t => if k₁ = k then some v₁ else lookupKV t k

/-- `Map::save` / the write half of `Map::update`: replace the first
binding of `k`, or append a new one. -/
def setKV {α : Type} (l : List (String × α)) (k : String) (v : α) :
    List (String × α) :=
  match l with
  | [] => [(k, v)]
  | (k₁, v₁) :: t => if k₁ = k then (k, v) :: t else (k₁, v₁) :: setKV t k v

/-- `Map::remove`: drop the first binding of `k`. -/
def removeKV {α : Type} (l : List (String × α)) (k : String) :
    List (String × α) :=
  match l with
  | [] => []
  | (k₁, v₁) :: t => if k₁ = k then t else (k₁, v₁) :: removeKV t k

/-- Sum of `total_usdc_value` over all stored `UserInfo` records. -/
def sumUserValues (l : List (String × UserInfo)) : Nat :=
  (l.map (fun kv => kv.2.total_usdc_value)).sum

/-- Sum of `allocation_percentage` (atomics) over a protocol list. -/
def sumAllocs (l : List (String × ProtocolInfo)) : Nat :=
  (l.map (fun kv => kv.2.allocation_percentage)).sum

/-- Sum of `allocation_percentage` over the enabled protocols. -/
def enabledAllocSum (l : List (String × ProtocolInfo)) : Nat :=
  sumAllocs (l.filter (fun kv => kv.2.enabled))

/-- `total_protocol_balance` of `execute_withdraw`: the sum of
`current_balance` over the enabled protocols. -/
def enabledBalanceSum (l : List (String × ProtocolInfo)) : Nat :=
  ((l.filter (fun kv => kv.2.enabled)).map (fun kv => kv.2.current_balance)).sum

/-- `create_protocol_adapter` (`protocols.rs`) succeeds exactly for the
three registered adapter types; anything else is `ProtocolNotFound`. -/
def knownProtocolType (name : String) : Bool :=
  name == "helix" || name == "hydro" || name == "neptune"

/-! ## Token converter (`token_converter.rs`)

The Astroport swap simulation is an external querier call; it enters the
model through an oracle `sim : offer_denom → ask_denom → offer_amount →
simulated_amount`. -/

/-- `AstroportRouter::convert_to_usdc`.  For a non-`"usdc"` denom the Rust
computes `min_expected = simulated.multiply_ratio(Uint128::new(1_000_000) -
max_slippage.atomics(), Uint128::new(1_000_000))`; the `Uint128`
subtraction panics whenever `max_slippage.atomics() > 1_000_000`
(i.e. whenever `max_slippage ≥ 10^-12`), modelled as `none`.  On success
the returned pair is the swap message (carrying `minimum_receive =
min_expected`) and `simulate_swap.amount` — the simulated amount, not the
minimum. -/
def convert_to_usdc (sim : String → String → Nat → Nat) (router denom : String)
    (amount max_slippage : Nat) : Option (CosmosMsg × Nat) :=
  if denom = "usdc" then
    some (CosmosMsg.bankSend router denom amount, amount)
  else
    let simulated := sim denom "usdc" amount
    match checkedSub 1000000 max_slippage with
    | none => none
    | some diff =>
      let min_expected := mulRatio simulated diff 1000000
      some (CosmosMsg.swap router denom "usdc" amount min_expected, simulated)

/-- `AstroportRouter::convert_from_usdc` (the mirror-image direction). -/
def convert_from_usdc (sim : String → String → Nat → Nat)
    (router to_denom : String) (amount max_slippage : Nat) :
    Option (CosmosMsg × Nat) :=
  if to_denom = "usdc" then
    some (CosmosMsg.bankSend router to_denom amount, amount)
  else
    let simulated := sim "usdc" to_denom amount
    match checkedSub 1000000 max_slippage with
    | none => none
    | some diff =>
      let min_expected := mulRatio simulated diff 1000000
      some (CosmosMsg.swap router "usdc" to_denom amount min_expected, simulated)

/-- `AstroportRouter::safe_convert_to_usdc`: rejects zero amounts with
`InvalidAmount`, then delegates.  A panic inside `convert_to_usdc` is not
caught by the `match` in the Rust (it only converts `StdError` into
`ConversionError`), so the `none` case surfaces as `Panic`. -/
def safe_convert_to_usdc (sim : String → String → Nat → Nat)
    (router denom : String) (amount max_slippage : Nat) :
    Except ContractError (CosmosMsg × Nat) :=
  if amount = 0 then .error .InvalidAmount
  else
    match convert_to_usdc sim router denom amount max_slippage with
    | some r => .ok r
    | none => .error (.Panic "Uint128 subtraction overflow")

/-- `AstroportRouter::safe_convert_from_usdc`. -/
def safe_convert_from_usdc (sim : String → String → Nat → Nat)
    (router to_denom : String) (amount max_slippage : Nat) :
    Except ContractError (CosmosMsg × Nat) :=
  if amount = 0 then .error .InvalidAmount
  else
    match convert_from_usdc sim router to_denom amount max_slippage with
    | some r => .ok r
    | none => .error (.Panic "Uint128 subtraction overflow")

/-! ## Instantiation (`contract.rs::instantiate`) -/

/-- `msg::InstantiateMsg`. -/
structure InstantiateMsg where
  admin : String
  ai_operator : String
  base_denom : String
  accepted_denoms : List String
  astroport_router : String
  risk_parameters : RiskParameters
deriving Repr, DecidableEq

/-- `contract::instantiate`: stores the config and risk parameters,
zeroes `TOTAL_USDC_VALUE`, empties `REBALANCE_HISTORY`; the user and
protocol maps start empty. -/
def instantiate (msg : InstantiateMsg) : ContractState :=
  { config :=
      { admin := msg.admin
        ai_operator := msg.ai_operator
        base_denom := msg.base_denom
        accepted_denoms := msg.accepted_denoms
        astroport_router := msg.astroport_router }
    risk_parameters := msg.risk_parameters
    user_infos := []
    protocols := []
    total_usdc_value := 0
    rebalance_history := [] }

/-! ## Deposit (`contract.rs::execute_deposit`) -/

/-- The per-protocol distribution loop of `execute_deposit`: every enabled
protocol with a nonzero share `usdc_value.multiply_ratio(allocation.numerator(),
allocation.denominator())` gets one adapter `deposit` message and its
`current_balance` incremented.  Adapter creation uses the protocol *name*
as the adapter type, so an unknown name with a nonzero share fails with
`ProtocolNotFound`.  (The Rust iterates a `HashMap`, whose order is
unspecified; the per-protocol updates are independent, so this list-order
traversal is an admissible order.) -/
def distributeDeposit (usdc_value : Nat) :
    List (String × ProtocolInfo) →
    Except ContractError (List (String × ProtocolInfo) × List CosmosMsg)
  | [] => .ok ([], [])
  | (name, p) :: rest =>
    if p.enabled then
      let protocol_deposit := mulRatio usdc_value p.allocation_percentage DECIMAL_FRACTIONAL
      if protocol_deposit = 0 then
        match distributeDeposit usdc_value rest with
        | .error e => .error e
        | .ok (rest', msgs) => .ok ((name, p) :: rest', msgs)
      else if knownProtocolType name then
        match distributeDeposit usdc_value rest with
        | .error e => .error e
        | .ok (rest', msgs) =>
          .ok ((name, { p with current_balance := p.current_balance + protocol_deposit }) :: rest',
               .protocolDeposit name p.contract_addr protocol_deposit :: msgs)
      else .error (.ProtocolNotFound name)
    else
      match distributeDeposit usdc_value rest with
      | .error e => .error e
      | .ok (rest', msgs) => .ok ((name, p) :: rest', msgs)

/-- `contract::execute_deposit`. -/
def execute_deposit (sim : String → String → Nat → Nat) (s : ContractState)
    (env : Env) (info : MessageInfo) :
    Except ContractError (ContractState × List CosmosMsg) :=
  match info.funds with
  | [] => .error .NoFunds
  | (denom, amount) :: restFunds =>
    if restFunds ≠ [] then .error .MultipleDenoms
    else if ¬ s.config.accepted_denoms.contains denom then
      .error (.UnsupportedDenom denom)
    else
      let conv : Except ContractError (CosmosMsg × Nat) :=
        if denom ≠ s.config.base_denom then
          safe_convert_to_usdc sim s.config.astroport_router denom amount
            s.risk_parameters.max_slippage
        else
          .ok (CosmosMsg.bankSend env.contract_address denom amount, amount)
      match conv with
      | .error e => .error e
      | .ok (conversion_msg, usdc_value) =>
        let user := (lookupKV s.user_infos info.sender).getD emptyUserInfo
        let user' : UserInfo :=
          { total_usdc_value := user.total_usdc_value + usdc_value
            deposits := user.deposits ++
              [{ original_token := denom, original_amount := amount,
                 usdc_value_at_deposit := usdc_value, timestamp := env.block_time }] }
        match distributeDeposit usdc_value s.protocols with
        | .error e => .error e
        | .ok (protocols', distribution_msgs) =>
          .ok ({ s with
                   user_infos := setKV s.user_infos info.sender user'
                   total_usdc_value := s.total_usdc_value + usdc_value
                   protocols := protocols' },
               conversion_msg :: distribution_msgs)

/-! ## Withdraw (`contract.rs::execute_withdraw`) -/

/-- The per-protocol proportional pull loop of `execute_withdraw`: every
enabled protocol is debited `amount.multiply_ratio(balance,
total_protocol_balance)` (balance update by `saturating_sub`, which on
`Nat` is plain subtraction) and, when the pull is nonzero, contributes one
adapter `withdraw` message. -/
def withdrawFromProtocols (amount total_protocol_balance : Nat) :
    List (String × ProtocolInfo) →
    Except ContractError (List (String × ProtocolInfo) × List CosmosMsg)
  | [] => .ok ([], [])
  | (name, p) :: rest =>
    if p.enabled then
      let withdrawal_amount := mulRatio amount p.current_balance total_protocol_balance
      if withdrawal_amount = 0 then
        match withdrawFromProtocols amount total_protocol_balance rest with
        | .error e => .error e
        | .ok (rest', msgs) => .ok ((name, p) :: rest', msgs)
      else if knownProtocolType name then
        match withdrawFromProtocols amount total_protocol_balance rest with
        | .error e => .error e
        | .ok (rest', msgs) =>
          .ok ((name, { p with current_balance := p.current_balance - withdrawal_amount }) :: rest',
               .protocolWithdraw name p.contract_addr withdrawal_amount :: msgs)
      else .error (.ProtocolNotFound name)
    else
      match withdrawFromProtocols amount total_protocol_balance rest with
      | .error e => .error e
      | .ok (rest', msgs) => .ok ((name, p) :: rest', msgs)

/-- `contract::execute_withdraw`. -/
def execute_withdraw (sim : String → String → Nat → Nat) (s : ContractState)
    (info : MessageInfo) (amount : Nat) (denomOpt : Option String) :
    Except ContractError (ContractState × List CosmosMsg) :=
  if amount = 0 then .error .InvalidAmount
  else
    let user := (lookupKV s.user_infos info.sender).getD emptyUserInfo
    if user.total_usdc_value < amount then .error .InsufficientFunds
    else
      let withdraw_denom := denomOpt.getD s.config.base_denom
      let users' := setKV s.user_infos info.sender
        { user with total_usdc_value := user.total_usdc_value - amount }
      match checkedSub s.total_usdc_value amount with
      | none => .error (.Panic "Uint128 subtraction overflow")
      | some total' =>
        let tpb := enabledBalanceSum s.protocols
        let pulls : Except ContractError (List (String × ProtocolInfo) × List CosmosMsg) :=
          if tpb = 0 then .ok (s.protocols, [])
          else withdrawFromProtocols amount tpb s.protocols
        match pulls with
        | .error e => .error e
        | .ok (protocols', pull_msgs) =>
          let tailMsgs : Except ContractError (List CosmosMsg) :=
            if withdraw_denom ≠ s.config.base_denom then
              match safe_convert_from_usdc sim s.config.astroport_router
                  withdraw_denom amount s.risk_parameters.max_slippage with
              | .error e => .error e
              | .ok (conversion_msg, converted_amount) =>
                .ok [conversion_msg,
                     .bankSend info.sender withdraw_denom converted_amount]
            else
              .ok [CosmosMsg.bankSend info.sender s.config.base_denom amount]
          match tailMsgs with
          | .error e => .error e
          | .ok tmsgs =>
            .ok ({ s with
                     user_infos := users'
                     total_usdc_value := total'
                     protocols := protocols' },
                 pull_msgs ++ tmsgs)

/-! ## Emergency withdraw (`contract.rs::execute_emergency_withdraw`) -/

/-- The per-protocol pull loop of `execute_emergency_withdraw`: every
enabled protocol with a nonzero balance is debited
`balance.multiply_ratio(user_share.numerator(), user_share.denominator())`
where `user_share = Decimal::from_ratio(user_total, total_value)`
(`from_ratio` panics on a zero denominator, modelled as `Panic`). -/
def emergencyPulls (user_total total_value : Nat) :
    List (String × ProtocolInfo) →
    Except ContractError (List (String × ProtocolInfo) × List CosmosMsg)
  | [] => .ok ([], [])
  | (name, p) :: rest =>
    if p.enabled ∧ p.current_balance ≠ 0 then
      if total_value = 0 then .error (.Panic "Denominator must not be zero")
      else
        let user_share := decFromRatio user_total total_value
        let withdrawal_amount := mulRatio p.current_balance user_share DECIMAL_FRACTIONAL
        if withdrawal_amount = 0 then
          match emergencyPulls user_total total_value rest with
          | .error e => .error e
          | .ok (rest', msgs) => .ok ((name, p) :: rest', msgs)
        else if knownProtocolType name then
          match emergencyPulls user_total total_value rest with
          | .error e => .error e
          | .ok (rest', msgs) =>
            .ok ((name, { p with current_balance := p.current_balance - withdrawal_amount }) :: rest',
                 .protocolWithdraw name p.contract_addr withdrawal_amount :: msgs)
        else .error (.ProtocolNotFound name)
    else
      match emergencyPulls user_total total_value rest with
      | .error e => .error e
      | .ok (rest', msgs) => .ok ((name, p) :: rest', msgs)

/-- `contract::execute_emergency_withdraw`.  `fee_amount` floors
`total_value * emergency_withdrawal_fee`; the payout is `total_value -
fee_amount` (a `Uint128` subtraction, panicking if the configured fee
fraction exceeds one enough to push the flooring above the total); the
user's `total_usdc_value` is reset to zero while the deposit audit trail
is kept; `TOTAL_USDC_VALUE` is debited by the pre-reset user total. -/
def execute_emergency_withdraw (s : ContractState) (info : MessageInfo) :
    Except ContractError (ContractState × List CosmosMsg) :=
  let user := (lookupKV s.user_infos info.sender).getD emptyUserInfo
  if user.total_usdc_value = 0 then .error .InsufficientFunds
  else
    let fee_amount := mulRatio user.total_usdc_value
      s.risk_parameters.emergency_withdrawal_fee DECIMAL_FRACTIONAL
    match checkedSub user.total_usdc_value fee_amount with
    | none => .error (.Panic "Uint128 subtraction overflow")
    | some withdrawal_amount =>
      let pulls : Except ContractError (List (String × ProtocolInfo) × List CosmosMsg) :=
        if s.protocols = [] then .ok (s.protocols, [])
        else emergencyPulls user.total_usdc_value s.total_usdc_value s.protocols
      match pulls with
      | .error e => .error e
      | .ok (protocols', pull_msgs) =>
        match checkedSub s.total_usdc_value user.total_usdc_value with
        | none => .error (.Panic "Uint128 subtraction overflow")
        | some total' =>
          .ok ({ s with
                   user_infos := setKV s.user_infos info.sender
                     { user with total_usdc_value := 0 }
                   total_usdc_value := total'
                   protocols := protocols' },
               pull_msgs ++
                 [CosmosMsg.bankSend info.sender s.config.base_denom withdrawal_amount])

/-! ## Protocol management (`contract.rs`) -/

/-- The rescaling loop of `execute_add_protocol`: every pre-existing
protocol's allocation is scaled to `allocation * remaining_allocation /
old_total_allocation` (`Decimal` multiplication then division, each
flooring).  The `old_total_allocation == 0` inner branch of the Rust is
unreachable (the loop only runs under `!old_total_allocation.is_zero()`)
but kept for fidelity. -/
def scaleAllocations (remaining_allocation old_total_allocation : Nat)
    (l : List (String × ProtocolInfo)) : List (String × ProtocolInfo) :=
  l.map (fun kv =>
    (kv.1, { kv.2 with
               allocation_percentage :=
                 if old_total_allocation = 0 then 0
                 else decDiv (decMul kv.2.allocation_percentage remaining_allocation)
                        old_total_allocation }))

/-- `contract::execute_add_protocol`.  Admin-only; rejects duplicates and
allocations above `max_allocation_per_protocol`; registers the protocol
enabled with a zero balance; when the new allocation is nonzero and the
pre-existing protocols have a nonzero combined allocation, rescales them
by `(1 - initial_allocation) / old_total`.  In production
(`#[cfg(not(test))]`) adapter creation validates the protocol name, so an
unknown name fails with `ProtocolNotFound`; `Decimal::one() -
initial_allocation` panics when the initial allocation exceeds one.  The
new entry is appended; list position stands for storage key order and no
theorem depends on it. -/
def execute_add_protocol (s : ContractState) (info : MessageInfo)
    (name contract_addr : String) (initial_allocation : Nat) :
    Except ContractError (ContractState × List CosmosMsg) :=
  if info.sender ≠ s.config.admin then .error .Unauthorized
  else if (lookupKV s.protocols name).isSome then
    .error (.ProtocolAlreadyExists name)
  else if initial_allocation > s.risk_parameters.max_allocation_per_protocol then
    .error .ExcessiveAllocation
  else if ¬ knownProtocolType name then .error (.ProtocolNotFound name)
  else
    let protocol_info : ProtocolInfo :=
      { name := name, contract_addr := contract_addr,
        allocation_percentage := initial_allocation,
        current_balance := 0, enabled := true }
    if initial_allocation ≠ 0 then
      let old_total_allocation := sumAllocs s.protocols
      match checkedSub decimalOne initial_allocation with
      | none => .error (.Panic "Decimal subtraction overflow")
      | some remaining_allocation =>
        let scaled :=
          if old_total_allocation ≠ 0 then
            scaleAllocations remaining_allocation old_total_allocation s.protocols
          else s.protocols
        .ok ({ s with protocols := scaled ++ [(name, protocol_info)] }, [])
    else
      .ok ({ s with protocols := s.protocols ++ [(name, protocol_info)] }, [])

/-- The redistribution loop of `execute_remove_protocol`: each remaining
protocol gets `allocation * Decimal::one() / remaining_total`, overridden
to exactly `Decimal::one()` when precisely one protocol remains.  The
`remaining_total == 0` inner branch (`old_allocation /
Decimal::from_ratio(len, 1)`) is unreachable under the caller's guard but
kept for fidelity. -/
def redistributeAllocations (old_allocation remaining_total : Nat)
    (remaining_count : Nat) (l : List (String × ProtocolInfo)) :
    List (String × ProtocolInfo) :=
  l.map (fun kv =>
    (kv.1, { kv.2 with
               allocation_percentage :=
                 if remaining_total = 0 then
                   decDiv old_allocation (decFromRatio remaining_count 1)
                 else if remaining_count = 1 then decimalOne
                 else decDiv (decMul kv.2.allocation_percentage decimalOne)
                        remaining_total }))

/-- `contract::execute_remove_protocol`.  Admin-only; `ProtocolNotFound`
for unregistered names; when the removed protocol holds a nonzero balance
the production build emits one adapter `withdraw` for all of it; the
removed protocol's allocation is redistributed over the remaining ones
only when it was nonzero and the remaining allocations are not all
zero. -/
def execute_remove_protocol (s : ContractState) (info : MessageInfo)
    (name : String) : Except ContractError (ContractState × List CosmosMsg) :=
  if info.sender ≠ s.config.admin then .error .Unauthorized
  else
    match lookupKV s.protocols name with
    | none => .error (.ProtocolNotFound name)
    | some protocol =>
      let withdrawMsgs : Except ContractError (List CosmosMsg) :=
        if protocol.current_balance ≠ 0 then
          if knownProtocolType name then
            .ok [CosmosMsg.protocolWithdraw name protocol.contract_addr
                   protocol.current_balance]
          else .error (.ProtocolNotFound name)
        else .ok []
      match withdrawMsgs with
      | .error e => .error e
      | .ok messages =>
        let remaining := removeKV s.protocols name
        let old_allocation := protocol.allocation_percentage
        let protocols' :=
          if old_allocation ≠ 0 then
            let remaining_total_allocation := sumAllocs remaining
            if remaining_total_allocation ≠ 0 ∧ remaining ≠ [] then
              redistributeAllocations old_allocation remaining_total_allocation
                remaining.length remaining
            else remaining
          else remaining
        .ok ({ s with protocols := protocols' }, messages)

/-- `contract::execute_update_protocol`.  Admin-only; `ProtocolNotFound`
for unregistered names; optionally flips `enabled` and/or replaces the
adapter address. -/
def execute_update_protocol (s : ContractState) (info : MessageInfo)
    (name : String) (enabled : Option Bool) (contract_addr : Option String) :
    Except ContractError (ContractState × List CosmosMsg) :=
  if info.sender ≠ s.config.admin then .error .Unauthorized
  else
    match lookupKV s.protocols name with
    | none => .error (.ProtocolNotFound name)
    | some protocol =>
      let p₁ := match enabled with
        | some b => { protocol with enabled := b }
        | none => protocol
      let p₂ := match contract_addr with
        | some a => { p₁ with contract_addr := a }
        | none => p₁
      .ok ({ s with protocols := setKV s.protocols name p₂ }, [])

/-! ## Rebalance planner (`strategy_executor.rs`) -/

/-- `strategy_executor::RebalanceAction`. -/
structure RebalanceAction where
  protocol_name : String
  contract_addr : String
  amount : Nat
deriving Repr, DecidableEq

/-- `StrategyExecutor::validate_allocations`: the raw target list must sum
to exactly `Decimal::one()` (`InvalidAllocations`), and no single target
may exceed `max_per_protocol` (`ExcessiveAllocation`). -/
def validate_allocations (target_allocations : List (String × Nat))
    (max_per_protocol : Nat) : Except ContractError Unit :=
  if (target_allocations.map Prod.snd).sum ≠ decimalOne then
    .error .InvalidAllocations
  else if target_allocations.any (fun t => max_per_protocol < t.2) then
    .error .ExcessiveAllocation
  else .ok ()

/-- Lookup in the `target_map` `HashMap` built by inserting the target
list in order: a duplicated name keeps its last occurrence. -/
def lookupLast (l : List (String × Nat)) (k : String) : Option Nat :=
  lookupKV l.reverse k

/-- The entries of the `target_map` `HashMap`: one per distinct name,
carrying the last occurrence's value.  (`HashMap` iteration order is
unspecified; the deposit actions it feeds produce only outbound messages,
never ledger writes, so any order is admissible.) -/
def dedupLast : List (String × Nat) → List (String × Nat)
  | [] => []
  | (k, v) :: t =>
    if (t.map Prod.fst).contains k then dedupLast t else (k, v) :: dedupLast t

/-- The withdrawal half of
`StrategyExecutor::calculate_rebalance_actions`: a protocol whose target
fraction (0 if unnamed) is strictly below its current fraction is debited
`saturating_sub(current_balance, total_value.multiply_ratio(target))`. -/
def calculateWithdrawals (target_allocations : List (String × Nat))
    (total_value : Nat) (protocols : List (String × ProtocolInfo)) :
    List RebalanceAction :=
  protocols.filterMap (fun kv =>
    let target_percentage := (lookupLast target_allocations kv.1).getD 0
    if target_percentage < kv.2.allocation_percentage then
      let target_balance := mulRatio total_value target_percentage DECIMAL_FRACTIONAL
      let withdrawal_amount := kv.2.current_balance - target_balance
      if withdrawal_amount ≠ 0 then
        some { protocol_name := kv.1, contract_addr := kv.2.contract_addr,
               amount := withdrawal_amount }
      else none
    else none)

/-- The deposit half of `StrategyExecutor::calculate_rebalance_actions`:
a targeted name whose fraction is strictly above the current one (0 if
unregistered) yields `saturating_sub(target_balance, current_balance)`;
unregistered names are silently skipped (`if let Ok(Some(..))`). -/
def calculateDeposits (target_allocations : List (String × Nat))
    (total_value : Nat) (protocols : List (String × ProtocolInfo)) :
    List RebalanceAction :=
  (dedupLast target_allocations).filterMap (fun t =>
    let current_percentage :=
      ((lookupKV protocols t.1).map (fun p => p.allocation_percentage)).getD 0
    if current_percentage < t.2 then
      let target_balance := mulRatio total_value t.2 DECIMAL_FRACTIONAL
      let current_balance :=
        ((lookupKV protocols t.1).map (fun p => p.current_balance)).getD 0
      let deposit_amount := target_balance - current_balance
      if deposit_amount ≠ 0 then
        match lookupKV protocols t.1 with
        | some protocol_info =>
          some { protocol_name := t.1, contract_addr := protocol_info.contract_addr,
                 amount := deposit_amount }
        | none => none
      else none
    else none)

/-- Resolve each action's adapter (by protocol name) and collect the
resulting messages; an unknown protocol type is `ProtocolNotFound`. -/
def adapterActionMsgs (mk : String → String → Nat → CosmosMsg) :
    List RebalanceAction → Except ContractError (List CosmosMsg)
  | [] => .ok []
  | a :: rest =>
    if knownProtocolType a.protocol_name then
      match adapterActionMsgs mk rest with
      | .error e => .error e
      | .ok msgs => .ok (mk a.protocol_name a.contract_addr a.amount :: msgs)
    else .error (.ProtocolNotFound a.protocol_name)

/-- The commit loop of `StrategyExecutor::execute_rebalance`: overwrite
each named protocol's `allocation_percentage` with its target, in target
list order; a target naming an unregistered protocol fails with the
generic storage error `"Protocol not found: .."`. -/
def applyTargetAllocations (protocols : List (String × ProtocolInfo)) :
    List (String × Nat) →
    Except ContractError (List (String × ProtocolInfo))
  | [] => .ok protocols
  | (name, new_allocation) :: rest =>
    match lookupKV protocols name with
    | none => .error (.Std ("Protocol not found: " ++ name))
    | some protocol =>
      applyTargetAllocations
        (setKV protocols name { protocol with allocation_percentage := new_allocation })
        rest

/-- `strategy_executor::record_rebalance`: push the record, then, when the
length exceeds 20, `history = history.drain(0..(len - 20)).collect()` —
`drain` removes and *yields* the first `len - 20` elements, and the
reassignment keeps exactly those, i.e. the oldest prefix. -/
def record_rebalance (history : List RebalanceRecord) (r : RebalanceRecord) :
    List RebalanceRecord :=
  let h := history ++ [r]
  if 20 < h.length then h.take (h.length - 20) else h

/-- `StrategyExecutor::execute_rebalance`: validate, plan withdrawals then
deposits, emit the adapter messages (all withdrawals before any deposit),
commit the target allocations, record history. -/
def strategyExecuteRebalance (s : ContractState) (env : Env)
    (info : MessageInfo) (target_allocations : List (String × Nat))
    (reason : String) (max_allocation_per_protocol : Nat) :
    Except ContractError (ContractState × List CosmosMsg) :=
  match validate_allocations target_allocations max_allocation_per_protocol with
  | .error e => .error e
  | .ok _ =>
    let old_allocations := s.protocols.map
      (fun kv => (kv.2.name, kv.2.allocation_percentage))
    let total_value := s.total_usdc_value
    let withdrawals := calculateWithdrawals target_allocations total_value s.protocols
    let deposits := calculateDeposits target_allocations total_value s.protocols
    match adapterActionMsgs CosmosMsg.protocolWithdraw withdrawals with
    | .error e => .error e
    | .ok withdraw_msgs =>
      match adapterActionMsgs CosmosMsg.protocolDeposit deposits with
      | .error e => .error e
      | .ok deposit_msgs =>
        match applyTargetAllocations s.protocols target_allocations with
        | .error e => .error e
        | .ok protocols' =>
          let history' := record_rebalance s.rebalance_history
            { timestamp := env.block_time, initiated_by := info.sender,
              old_allocations := old_allocations,
              new_allocations := target_allocations, reason := reason }
          .ok ({ s with protocols := protocols', rebalance_history := history' },
               withdraw_msgs ++ deposit_msgs)

/-- `contract::execute_rebalance`: operator-only wrapper around the
strategy executor. -/
def execute_rebalance (s : ContractState) (env : Env) (info : MessageInfo)
    (target_allocations : List (String × Nat)) (reason : String) :
    Except ContractError (ContractState × List CosmosMsg) :=
  if info.sender ≠ s.config.ai_operator then .error .Unauthorized
  else
    strategyExecuteRebalance s env info target_allocations reason
      s.risk_parameters.max_allocation_per_protocol

/-! ## Admin operations (`contract.rs`) -/

/-- `contract::execute_update_risk_parameters` (admin-only). -/
def execute_update_risk_parameters (s : ContractState) (info : MessageInfo)
    (rp : RiskParameters) : Except ContractError (ContractState × List CosmosMsg) :=
  if info.sender ≠ s.config.admin then .error .Unauthorized
  else .ok ({ s with risk_parameters := rp }, [])

/-- `contract::execute_add_supported_token` (admin-only; a no-op when the
denom is already accepted). -/
def execute_add_supported_token (s : ContractState) (info : MessageInfo)
    (denom : String) : Except ContractError (ContractState × List CosmosMsg) :=
  if info.sender ≠ s.config.admin then .error .Unauthorized
  else if s.config.accepted_denoms.contains denom then .ok (s, [])
  else
    .ok ({ s with config :=
             { s.config with accepted_denoms := s.config.accepted_denoms ++ [denom] } },
         [])

/-- `contract::execute_remove_supported_token` (admin-only; the base denom
cannot be removed; a no-op when the denom is not accepted). -/
def execute_remove_supported_token (s : ContractState) (info : MessageInfo)
    (denom : String) : Except ContractError (ContractState × List CosmosMsg) :=
  if info.sender ≠ s.config.admin then .error .Unauthorized
  else if denom = s.config.base_denom then
    .error (.Std "Cannot remove base denomination")
  else if ¬ s.config.accepted_denoms.contains denom then .ok (s, [])
  else
    .ok ({ s with config :=
             { s.config with accepted_denoms :=
                 s.config.accepted_denoms.filter (fun d => d ≠ denom) } },
         [])

/-- `contract::execute_update_admin` (admin-only). -/
def execute_update_admin (s : ContractState) (info : MessageInfo)
    (admin : String) : Except ContractError (ContractState × List CosmosMsg) :=
  if info.sender ≠ s.config.admin then .error .Unauthorized
  else .ok ({ s with config := { s.config with admin := admin } }, [])

/-- `contract::execute_update_ai_operator` (admin-only). -/
def execute_update_ai_operator (s : ContractState) (info : MessageInfo)
    (ai_operator : String) : Except ContractError (ContractState × List CosmosMsg) :=
  if info.sender ≠ s.config.admin then .error .Unauthorized
  else .ok ({ s with config := { s.config with ai_operator := ai_operator } }, [])

/-! ## Dispatch (`contract.rs::execute`) and queries -/

/-- `msg::ExecuteMsg`. -/
inductive ExecuteMsg where
  | Deposit
  | Withdraw (amount : Nat) (denom : Option String)
  | EmergencyWithdraw
  | AddProtocol (name contract_addr : String) (initial_allocation : Nat)
  | RemoveProtocol (name : String)
  | UpdateProtocol (name : String) (enabled : Option Bool)
      (contract_addr : Option String)
  | Rebalance (target_allocations : List (String × Nat)) (reason : String)
  | UpdateRiskParameters (risk_parameters : RiskParameters)
  | AddSupportedToken (denom : String)
  | RemoveSupportedToken (denom : String)
  | UpdateAdmin (admin : String)
  | UpdateAiOperator (ai_operator : String)
deriving Repr, DecidableEq

/-- `contract::execute`: dispatch to the handler for each message. -/
def execute (sim : String → String → Nat → Nat) (s : ContractState)
    (env : Env) (info : MessageInfo) (msg : ExecuteMsg) :
    Except ContractError (ContractState × List CosmosMsg) :=
  match msg with
  | .Deposit => execute_deposit sim s env info
  | .Withdraw amount denom => execute_withdraw sim s info amount denom
  | .EmergencyWithdraw => execute_emergency_withdraw s info
  | .AddProtocol name contract_addr initial_allocation =>
    execute_add_protocol s info name contract_addr initial_allocation
  | .RemoveProtocol name => execute_remove_protocol s info name
  | .UpdateProtocol name enabled contract_addr =>
    execute_update_protocol s info name enabled contract_addr
  | .Rebalance target_allocations reason =>
    execute_rebalance s env info target_allocations reason
  | .UpdateRiskParameters rp => execute_update_risk_parameters s info rp
  | .AddSupportedToken denom => execute_add_supported_token s info denom
  | .RemoveSupportedToken denom => execute_remove_supported_token s info denom
  | .UpdateAdmin admin => execute_update_admin s info admin
  | .UpdateAiOperator op => execute_update_ai_operator s info op

/-- Modelled from the spec: the dispatch/persistence boundary around the
contract (the CosmWasm runtime, an excluded collaborator per §2/§5 of the
spec) "discards all ledger writes attempted so far" when an operation
fails, so the post-call ledger is the pre-state on error and the returned
state on success. -/
def appliedState (sim : String → String → Nat → Nat) (s : ContractState)
    (env : Env) (info : MessageInfo) (msg : ExecuteMsg) : ContractState :=
  match execute sim s env info msg with
  | .ok (s', _) => s'
  | .error _ => s

/-- `contract::query_user_info` (with the address-validation port, an
excluded collaborator, having accepted the address): a missing record is
replaced by the zero `UserInfo`. -/
def query_user_info (s : ContractState) (address : String) :
    Except ContractError UserInfo :=
  .ok ((lookupKV s.user_infos address).getD emptyUserInfo)

/-! ## Concrete fixtures (used by counterexamples and witnesses) -/

/-- A trivially constant swap-simulation oracle. -/
def sim0 : String → String → Nat → Nat := fun _ _ _ => 0

/-- The instantiation used by the repository's own test harness:
base denom `"usdc"`, accepted `["usdc", "inj"]`, max allocation 50%,
max slippage 1%, rebalance threshold 5%, emergency fee 1% (as atomics). -/
def m0 : InstantiateMsg :=
  { admin := "admin", ai_operator := "op", base_denom := "usdc",
    accepted_denoms := ["usdc", "inj"], astroport_router := "router",
    risk_parameters :=
      { max_allocation_per_protocol := 500000000000000000,
        max_slippage := 10000000000000000,
        rebalance_threshold := 50000000000000000,
        emergency_withdrawal_fee := 10000000000000000 } }

/-- The freshly instantiated contract state. -/
def st0 : ContractState := instantiate m0

/-- A fixed environment. -/
def env0 : Env := { contract_address := "contract", block_time := 7 }

/-- A message context whose sender is the admin. -/
def infoAdmin : MessageInfo := { sender := "admin", funds := [] }

/-- A message context whose sender is the AI operator. -/
def infoOp : MessageInfo := { sender := "op", funds := [] }

/-- A message context for an ordinary user `"u"`. -/
def infoU : MessageInfo := { sender := "u", funds := [] }

/-- A fixture protocol: `"helix"` at 25% holding 100, enabled. -/
def helixInfo : ProtocolInfo :=
  { name := "helix", contract_addr := "a1",
    allocation_percentage := 250000000000000000,
    current_balance := 100, enabled := true }

/-- A fixture protocol: `"hydro"` at 75% holding 300, enabled. -/
def hydroInfo : ProtocolInfo :=
  { name := "hydro", contract_addr := "a2",
    allocation_percentage := 750000000000000000,
    current_balance := 300, enabled := true }

/-- A state with two enabled protocols holding balances 100 and 300 and a
user `"u"` holding 40, with `TOTAL_USDC_VALUE = 40`. -/
def stTwoProtos : ContractState :=
  { st0 with
      protocols := [("helix", helixInfo), ("hydro", hydroInfo)]
      user_infos := [("u", { total_usdc_value := 40, deposits := [] })]
      total_usdc_value := 40 }

/-! ## C1 — slippage floor of the token converter -/

/-- C1: the claim says `convert_to_usdc` builds a swap whose
`minimum_receive` floor is `S * (1 - max_slippage)` and returns that
minimum as the output amount.  The code instead computes
`S.multiply_ratio(Uint128::new(1_000_000) - max_slippage.atomics(),
1_000_000)`: `atomics()` is scaled by `10^18`, not `10^6`, so the
subtraction underflows — a panic that aborts the conversion — for every
`max_slippage ≥ 10^-12`, including the repository's own test
configuration of 1% (`atomics = 10^16`); first conjunct, at simulated
output `S = 1000`, amount 100.  On the rare non-panicking inputs
(second conjunct, `max_slippage = 10^-12`, atomics `10^6`) the floor is
`S * (10^6 - 10^6) / 10^6 = 0`, not `S * (1 - 10^-12)`, and the returned
output amount is the simulated `S = 1000`, not the floor. -/
theorem convert_to_usdc_floor_diverges :
    convert_to_usdc (fun _ _ _ => 1000) "router" "inj" 100 10000000000000000
        = none ∧
    convert_to_usdc (fun _ _ _ => 1000) "router" "inj" 100 1000000
        = some (CosmosMsg.swap "router" "inj" "usdc" 100 0, 1000) := by
  decide

/-! ## C3 — rebalance history eviction -/

/-- One distinguishable `RebalanceRecord` per timestamp. -/
def mkHistRec (i : Nat) : RebalanceRecord :=
  { timestamp := i, initiated_by := "op", old_allocations := [],
    new_allocations := [], reason := "" }

/-- A history already holding 20 records (timestamps 0..19). -/
def hist20 : List RebalanceRecord := (List.range 20).map mkHistRec

/-- C3: the claim says eviction beyond the cap of 20 is FIFO — oldest
records removed, newest retained.  `record_rebalance` instead reassigns
the history to the *drained prefix*: pushing a 21st record leaves the
history holding exactly the single oldest record, discarding the newly
appended record and the 19 next-oldest ones. -/
theorem record_rebalance_keeps_oldest :
    record_rebalance hist20 (mkHistRec 100) = [mkHistRec 0] ∧
    mkHistRec 100 ∉ record_rebalance hist20 (mkHistRec 100) := by
  decide

/-! ## C4 — rebalance validation errors -/

/-- C4: a `Rebalance` from any sender other than the configured AI
operator fails with `Unauthorized`; from the operator, target fractions
not summing to exactly one fail with `InvalidAllocations`; from the
operator with a correct sum, any single fraction strictly above
`max_allocation_per_protocol` fails with `ExcessiveAllocation` (the
sum check runs first, as in `validate_allocations`). -/
theorem rebalance_validation_errors (sim : String → String → Nat → Nat)
    (s : ContractState) (env : Env) (info : MessageInfo)
    (targets : List (String × Nat)) (reason : String) :
    (info.sender ≠ s.config.ai_operator →
      execute sim s env info (.Rebalance targets reason) = .error .Unauthorized) ∧
    (info.sender = s.config.ai_operator →
      (targets.map Prod.snd).sum ≠ decimalOne →
      execute sim s env info (.Rebalance targets reason) = .error .InvalidAllocations) ∧
    (info.sender = s.config.ai_operator →
      (targets.map Prod.snd).sum = decimalOne →
      (∃ t ∈ targets, s.risk_parameters.max_allocation_per_protocol < t.2) →
      execute sim s env info (.Rebalance targets reason) = .error .ExcessiveAllocation) := by
  refine ⟨?_, ?_, ?_⟩
  · intro h
    simp [execute, execute_rebalance, h]
  · intro hs hsum
    simp [execute, execute_rebalance, hs, strategyExecuteRebalance,
      validate_allocations, hsum]
  · intro hs hsum hex
    have hany : targets.any
        (fun t => s.risk_parameters.max_allocation_per_protocol < t.2) = true := by
      rw [List.any_eq_true]
      obtain ⟨t, ht, hlt⟩ := hex
      exact ⟨t, ht, by simpa using hlt⟩
    simp [execute, execute_rebalance, hs, strategyExecuteRebalance,
      validate_allocations, hsum, hany]

/-- Witness for C4: on the freshly instantiated state, a stranger's
rebalance is `Unauthorized`; the operator's empty target list (sum 0) is
`InvalidAllocations`; the operator's single target of 100% (sum exactly
one, above the 50% cap) is `ExcessiveAllocation`. -/
theorem rebalance_validation_errors_witness :
    execute sim0 st0 env0 { sender := "bob", funds := [] }
        (.Rebalance [] "r") = .error .Unauthorized ∧
    execute sim0 st0 env0 infoOp (.Rebalance [] "r")
        = .error .InvalidAllocations ∧
    execute sim0 st0 env0 infoOp (.Rebalance [("helix", decimalOne)] "r")
        = .error .ExcessiveAllocation :=
  ⟨(rebalance_validation_errors sim0 st0 env0 { sender := "bob", funds := [] }
      [] "r").1 (by decide),
   (rebalance_validation_errors sim0 st0 env0 infoOp [] "r").2.1
      (by decide) (by decide),
   (rebalance_validation_errors sim0 st0 env0 infoOp
      [("helix", decimalOne)] "r").2.2 (by decide) (by decide)
      ⟨("helix", decimalOne), by decide, by decide⟩⟩

/-! ## C8 — failed operations leave the ledger unchanged -/

/-- C8: for every public operation and every starting ledger state, if the
operation returns an error the post-call ledger equals the pre-call
ledger.  The contract itself returns `Except.error` without a state; the
surrounding dispatch/persistence layer (modelled by `appliedState`, per
§5 of the spec) keeps the pre-state in that case. -/
theorem failed_op_leaves_ledger_unchanged (sim : String → String → Nat → Nat)
    (s : ContractState) (env : Env) (info : MessageInfo) (msg : ExecuteMsg)
    (e : ContractError) (h : execute sim s env info msg = .error e) :
    appliedState sim s env info msg = s := by
  simp [appliedState, h]

/-- Witness for C8: a withdrawal of zero fails with `InvalidAmount` and
leaves the fresh state untouched. -/
theorem failed_op_leaves_ledger_unchanged_witness :
    appliedState sim0 st0 env0 infoAdmin (.Withdraw 0 none) = st0 :=
  failed_op_leaves_ledger_unchanged sim0 st0 env0 infoAdmin
    (.Withdraw 0 none) .InvalidAmount (by decide)

/-! ## C10 — `GetUserInfo` for unknown addresses -/

/-- C10: querying `GetUserInfo` for an address with no stored record does
not error and yields a `UserInfo` with `total_usdc_value = 0` and an
empty deposit list. -/
theorem query_user_info_default (s : ContractState) (address : String)
    (h : lookupKV s.user_infos address = none) :
    query_user_info s address = .ok { total_usdc_value := 0, deposits := [] } := by
  simp [query_user_info, h, emptyUserInfo]

/-- Witness for C10: the fresh state stores no record for `"nobody"`. -/
theorem query_user_info_default_witness :
    query_user_info st0 "nobody" = .ok { total_usdc_value := 0, deposits := [] } :=
  query_user_info_default st0 "nobody" (by decide)

/-! ## C2 — the allocation-sum invariant -/

/-- The state after the very first `AddProtocol` (name `"helix"`,
allocation 50%) on the fresh state. -/
def stOneProto : ContractState :=
  appliedState sim0 st0 env0 infoAdmin
    (.AddProtocol "helix" "a1" 500000000000000000)

/-- C2 counterexample: the claim asserts the enabled allocations sum to 1
(within a tight tolerance) after *every* successful
AddProtocol/RemoveProtocol/Rebalance sequence with at least one protocol
registered.  Already the one-operation sequence consisting of a single
successful `AddProtocol` at 50% (the maximum the repository's test
configuration allows) leaves one registered, enabled protocol whose
allocation sum is exactly `0.5` — off from 1 by one half, outside any
tight tolerance: `execute_add_protocol` only rescales *pre-existing*
protocols and there are none. -/
theorem allocation_sum_fails_after_first_add :
    execute sim0 st0 env0 infoAdmin
        (.AddProtocol "helix" "a1" 500000000000000000) = .ok (stOneProto, []) ∧
    stOneProto.protocols.length = 1 ∧
    enabledAllocSum stOneProto.protocols = 500000000000000000 ∧
    2 * enabledAllocSum stOneProto.protocols ≤ decimalOne := by
  decide

/-- Looking a key up is unaffected by writing a different key. -/
theorem lookupKV_setKV_ne {α : Type} (l : List (String × α)) (k k' : String)
    (v : α) (h : k' ≠ k) : lookupKV (setKV l k v) k' = lookupKV l k' := by
  induction l with
  | nil => simp [setKV, lookupKV, Ne.symm h]
  | cons kv t ih =>
    obtain ⟨k₁, v₁⟩ := kv
    by_cases hk : k₁ = k
    · subst hk
      simp [setKV, lookupKV, Ne.symm h]
    · by_cases hk' : k₁ = k'
      · subst hk'
        simp [setKV, lookupKV, hk]
      · simp [setKV, lookupKV, hk, hk', ih]

/-- A successful lookup returns a binding of the list. -/
theorem lookupKV_mem {α : Type} (l : List (String × α)) (k : String) (v : α)
    (h : lookupKV l k = some v) : (k, v) ∈ l := by
  induction l with
  | nil => simp [lookupKV] at h
  | cons kv t ih =>
    obtain ⟨k₁, v₁⟩ := kv
    by_cases hk : k₁ = k
    · subst hk
      rw [lookupKV, if_pos rfl] at h
      injection h with h1
      subst h1
      exact List.mem_cons_self _ _
    · rw [lookupKV, if_neg hk] at h
      exact List.mem_cons_of_mem _ (ih h)

/-- A key present in the key list has a binding. -/
theorem lookupKV_isSome_of_mem {α : Type} (l : List (String × α)) (k : String)
    (h : k ∈ l.map Prod.fst) : (lookupKV l k).isSome = true := by
  induction l with
  | nil => simp at h
  | cons kv t ih =>
    obtain ⟨k₁, v₁⟩ := kv
    by_cases hk : k₁ = k
    · simp [lookupKV, hk]
    · simp only [List.map_cons, List.mem_cons] at h
      rcases h with h | h

      · exact absurd h.symm hk
      · simp only [lookupKV, if_neg hk]
        exact ih h

/-- Overwriting an existing binding trades its old allocation for the new
one inside the allocation sum. -/
theorem sumAllocs_setKV (l : List (String × ProtocolInfo)) (k : String)
    (p v : ProtocolInfo) (h : lookupKV l k = some p) :
    sumAllocs (setKV l k v) + p.allocation_percentage
      = sumAllocs l + v.allocation_percentage := by
  induction l with
  | nil => simp [lookupKV] at h
  | cons kv t ih =>
    obtain ⟨k₁, v₁⟩ := kv
    by_cases hk : k₁ = k
    · subst hk
      rw [lookupKV, if_pos rfl] at h
      injection h with h1
      subst h1
      simp [setKV, sumAllocs]
      omega
    · rw [lookupKV, if_neg hk] at h
      simp only [setKV, if_neg hk, sumAllocs, List.map_cons, List.sum_cons]
      have := ih h
      simp only [sumAllocs] at this
      omega

/-- Writing an enabled record into an all-enabled list keeps every record
enabled. -/
theorem setKV_enabled_preserved (l : List (String × ProtocolInfo))
    (k : String) (v : ProtocolInfo) (hl : ∀ kv ∈ l, kv.2.enabled = true)
    (hv : v.enabled = true) :
    ∀ kv ∈ setKV l k v, kv.2.enabled = true := by
  induction l with
  | nil =>
    intro kv hkv
    simp only [setKV] at hkv
    rcases List.mem_singleton.mp hkv with rfl
    exact hv
  | cons kv₀ t ih =>
    intro kv hkv
    obtain ⟨k₁, v₁⟩ := kv₀
    by_cases hk : k₁ = k
    · simp only [setKV] at hkv
      rw [if_pos hk] at hkv
      rcases List.mem_cons.mp hkv with rfl | h'
      · exact hv
      · exact hl kv (List.mem_cons_of_mem _ h')
    · simp only [setKV] at hkv
      rw [if_neg hk] at hkv
      rcases List.mem_cons.mp hkv with rfl | h'
      · exact hl (k₁, v₁) (List.mem_cons_self _ _)
      · exact ih (fun kv h => hl kv (List.mem_cons_of_mem _ h)) kv h'

/-- Looking a key up is unaffected by removing a different key. -/
theorem lookupKV_removeKV_ne {α : Type} (l : List (String × α))
    (k k' : String) (h : k' ≠ k) :
    lookupKV (removeKV l k) k' = lookupKV l k' := by
  induction l with
  | nil => simp [removeKV]
  | cons kv t ih =>
    obtain ⟨k₁, v₁⟩ := kv
    by_cases hk : k₁ = k
    · subst hk
      simp [removeKV, lookupKV, Ne.symm h]
    · by_cases hk' : k₁ = k'
      · subst hk'
        simp [removeKV, lookupKV, hk]
      · simp [removeKV, lookupKV, hk, hk', ih]

/-- Removing a present key splits the allocation sum. -/
theorem sumAllocs_removeKV (l : List (String × ProtocolInfo)) (k : String)
    (p : ProtocolInfo) (h : lookupKV l k = some p) :
    sumAllocs l = p.allocation_percentage + sumAllocs (removeKV l k) := by
  induction l with
  | nil => simp [lookupKV] at h
  | cons kv t ih =>
    obtain ⟨k₁, v₁⟩ := kv
    by_cases hk : k₁ = k
    · subst hk
      rw [lookupKV, if_pos rfl] at h
      injection h with h1
      subst h1
      simp [removeKV, sumAllocs]
    · rw [lookupKV, if_neg hk] at h
      simp only [removeKV, if_neg hk, sumAllocs, List.map_cons, List.sum_cons]
      have := ih h
      simp only [sumAllocs] at this
      omega

/-- Removing a present key removes exactly one occurrence of it from the
key list, up to permutation. -/
theorem removeKV_map_fst_perm (l : List (String × ProtocolInfo)) (k : String)
    (p : ProtocolInfo) (h : lookupKV l k = some p) :
    List.Perm (l.map Prod.fst) (k :: (removeKV l k).map Prod.fst) := by
  induction l with
  | nil => simp [lookupKV] at h
  | cons kv t ih =>
    obtain ⟨k₁, v₁⟩ := kv
    by_cases hk : k₁ = k
    · subst hk
      simp [removeKV]
    · rw [lookupKV, if_neg hk] at h
      simp only [removeKV, if_neg hk, List.map_cons]
      exact ((ih h).cons k₁).trans (List.Perm.swap k k₁ _)

/-- The combined pre-rebalance allocation of the targeted protocols: for
each target in order, the allocation its name currently resolves to, if
any. -/
def targetOldAllocSum (protos : List (String × ProtocolInfo))
    (ts : List (String × Nat)) : Nat :=
  (ts.filterMap
    (fun t => (lookupKV protos t.1).map ProtocolInfo.allocation_percentage)).sum

/-- `targetOldAllocSum` only depends on what the targeted names resolve
to. -/
theorem targetOldAllocSum_congr (ts : List (String × Nat))
    (protos₁ protos₂ : List (String × ProtocolInfo))
    (h : ∀ t ∈ ts, lookupKV protos₁ t.1 = lookupKV protos₂ t.1) :
    targetOldAllocSum protos₁ ts = targetOldAllocSum protos₂ ts := by
  induction ts with
  | nil => rfl
  | cons t rest ih =>
    have hrest := ih (fun t' ht' => h t' (List.mem_cons_of_mem _ ht'))
    have hhead := h t (List.mem_cons_self _ _)
    simp only [targetOldAllocSum] at hrest ⊢
    simp only [List.filterMap_cons, hhead]
    cases lookupKV protos₂ t.1 with
    | none => exact hrest
    | some p =>
      simp only [Option.map_some', List.sum_cons]
      omega

/-- If the (repetition-free) target names cover the registered keys
exactly, the targets' combined pre-rebalance allocation is the whole
allocation sum. -/
theorem targetOldAllocSum_cover :
    ∀ (ts : List (String × Nat)) (protos : List (String × ProtocolInfo)),
    (ts.map Prod.fst).Nodup →
    List.Perm (ts.map Prod.fst) (protos.map Prod.fst) →
    targetOldAllocSum protos ts = sumAllocs protos := by
  intro ts
  induction ts with
  | nil =>
    intro protos _ hperm
    have hnil : protos.map Prod.fst = [] := List.Perm.eq_nil hperm.symm
    have : protos = [] := by
      cases protos with
      | nil => rfl
      | cons hd tl => simp at hnil
    subst this
    rfl
  | cons t rest ih =>
    intro protos hnodup hperm
    obtain ⟨k, a⟩ := t
    simp only [List.map_cons, List.nodup_cons] at hnodup
    obtain ⟨hknotin, hnodup'⟩ := hnodup
    have hkmem : k ∈ protos.map Prod.fst :=
      hperm.subset (List.mem_cons_self _ _)
    obtain ⟨p, hl⟩ := Option.isSome_iff_exists.mp
      (lookupKV_isSome_of_mem protos k hkmem)
    have hremperm :
        List.Perm (rest.map Prod.fst) ((removeKV protos k).map Prod.fst) :=
      (hperm.trans (removeKV_map_fst_perm protos k p hl)).cons_inv
    have hcongr : targetOldAllocSum protos rest
        = targetOldAllocSum (removeKV protos k) rest := by
      apply targetOldAllocSum_congr
      intro t' ht'
      refine (lookupKV_removeKV_ne protos k t'.1 ?_).symm
      intro hc
      exact hknotin (hc ▸ List.mem_map.mpr ⟨t', ht', rfl⟩)
    have hhead : targetOldAllocSum protos ((k, a) :: rest)
        = p.allocation_percentage + targetOldAllocSum protos rest := by
      simp [targetOldAllocSum, List.filterMap_cons, hl]
    rw [hhead, hcongr, ih (removeKV protos k) hnodup' hremperm,
      sumAllocs_removeKV protos k p hl]

/-- The commit loop of a rebalance with repetition-free target names
trades, inside the allocation sum, the targeted protocols' old
allocations for the targets, and keeps an all-enabled protocol list
all-enabled. -/
theorem applyTargetAllocations_sum :
    ∀ (ts : List (String × Nat)) (protos protos' : List (String × ProtocolInfo)),
    (ts.map Prod.fst).Nodup →
    applyTargetAllocations protos ts = .ok protos' →
    sumAllocs protos' + targetOldAllocSum protos ts
        = sumAllocs protos + (ts.map Prod.snd).sum ∧
    ((∀ kv ∈ protos, kv.2.enabled = true) → ∀ kv ∈ protos', kv.2.enabled = true) := by
  intro ts
  induction ts with
  | nil =>
    intro protos protos' _ h
    simp only [applyTargetAllocations] at h
    injection h with h1
    subst h1
    exact ⟨by simp [targetOldAllocSum], fun h => h⟩
  | cons t rest ih =>
    intro protos protos' hnodup h
    obtain ⟨k, a⟩ := t
    simp only [applyTargetAllocations] at h
    cases hl : lookupKV protos k with
    | none => rw [hl] at h; exact absurd h (by simp)
    | some p =>
      rw [hl] at h
      simp only [List.map_cons, List.nodup_cons] at hnodup
      obtain ⟨hknotin, hnodup'⟩ := hnodup
      obtain ⟨ihsum, ihen⟩ :=
        ih (setKV protos k { p with allocation_percentage := a }) protos' hnodup' h
      constructor
      · have hcongr :
            targetOldAllocSum (setKV protos k { p with allocation_percentage := a }) rest
              = targetOldAllocSum protos rest := by
          apply targetOldAllocSum_congr
          intro t' ht'
          apply lookupKV_setKV_ne
          intro hc
          exact hknotin (hc ▸ List.mem_map.mpr ⟨t', ht', rfl⟩)
        have hset : sumAllocs (setKV protos k { p with allocation_percentage := a })
            + p.allocation_percentage = sumAllocs protos + a :=
          sumAllocs_setKV protos k p { p with allocation_percentage := a } hl
        have hhead : targetOldAllocSum protos ((k, a) :: rest)
            = p.allocation_percentage + targetOldAllocSum protos rest := by
          simp [targetOldAllocSum, List.filterMap_cons, hl]
        rw [hcongr] at ihsum
        rw [hhead]
        simp only [List.map_cons, List.sum_cons]
        omega
      · intro hen
        apply ihen
        apply setKV_enabled_preserved protos k _ hen
        exact hen (k, p) (lookupKV_mem protos k p hl)

/-- When every protocol is enabled, the enabled-allocation sum is the
whole allocation sum. -/
theorem enabledAllocSum_eq_sumAllocs (l : List (String × ProtocolInfo))
    (h : ∀ kv ∈ l, kv.2.enabled = true) : enabledAllocSum l = sumAllocs l := by
  unfold enabledAllocSum
  rw [List.filter_eq_self.mpr h]

/-- C2 amended: after a successful `Rebalance` whose target list names
each registered protocol exactly once — in any order — and all
registered protocols are enabled, the enabled allocations sum to exactly
one: the validated targets sum to `Decimal::one()` and the commit loop
trades every protocol's old allocation for its target.  (The original
unconditional invariant is refuted by
`allocation_sum_fails_after_first_add`.) -/
theorem rebalance_full_cover_allocation_sum
    (sim : String → String → Nat → Nat) (s : ContractState) (env : Env)
    (info : MessageInfo) (targets : List (String × Nat)) (reason : String)
    (s' : ContractState) (msgs : List CosmosMsg)
    (hok : execute sim s env info (.Rebalance targets reason) = .ok (s', msgs))
    (hcov : List.Perm (targets.map Prod.fst) (s.protocols.map Prod.fst))
    (hnodup : (targets.map Prod.fst).Nodup)
    (hen : ∀ kv ∈ s.protocols, kv.2.enabled = true) :
    enabledAllocSum s'.protocols = decimalOne := by
  simp only [execute, execute_rebalance] at hok
  split at hok
  · simp at hok
  · simp only [strategyExecuteRebalance] at hok
    split at hok
    · simp at hok
    · rename_i val hval
      split at hok
      · simp at hok
      · split at hok
        · simp at hok
        · split at hok
          · simp at hok
          · rename_i protocols' happ
            injection hok with hpair
            injection hpair with hs' hmsgs
            subst hs'
            obtain ⟨hsum, henp⟩ :=
              applyTargetAllocations_sum targets s.protocols protocols' hnodup happ
            have hcover := targetOldAllocSum_cover targets s.protocols hnodup hcov
            have htarget : (targets.map Prod.snd).sum = decimalOne := by
              unfold validate_allocations at hval
              split at hval
              · simp at hval
              · split at hval
                · simp at hval
                · rename_i hns _
                  exact not_not.mp hns
            have heq : enabledAllocSum protocols' = sumAllocs protocols' :=
              enabledAllocSum_eq_sumAllocs protocols' (henp hen)
            dsimp only
            rw [heq]
            omega

/-- The state after the operator rebalances `stTwoProtos` to 50/50 with
the target list in the opposite order of the storage keys. -/
def stAfterRb : ContractState :=
  appliedState sim0 stTwoProtos env0 infoOp
    (.Rebalance [("hydro", 500000000000000000), ("helix", 500000000000000000)] "w")

/-- The messages of that rebalance. -/
def rbMsgs : List CosmosMsg :=
  match execute sim0 stTwoProtos env0 infoOp
      (.Rebalance [("hydro", 500000000000000000), ("helix", 500000000000000000)] "w") with
  | .ok (_, m) => m
  | .error _ => []

/-- Witness for the amended C2: the operator's 50/50 rebalance of the
two-protocol fixture, with the targets listed in permuted (non-storage)
order, succeeds and leaves the enabled allocations summing to exactly
one. -/
theorem rebalance_full_cover_allocation_sum_witness :
    enabledAllocSum stAfterRb.protocols = decimalOne :=
  rebalance_full_cover_allocation_sum sim0 stTwoProtos env0 infoOp
    [("hydro", 500000000000000000), ("helix", 500000000000000000)] "w"
    stAfterRb rbMsgs (by decide) (by decide) (by decide) (by decide)

/-! ## C9 — removing down to a single protocol -/

/-- `stOneProto` plus a second protocol `"hydro"` registered with
allocation zero (a zero initial allocation skips the rescaling). -/
def stTwoNoRescale : ContractState :=
  appliedState sim0 stOneProto env0 infoAdmin (.AddProtocol "hydro" "a2" 0)

/-- The state after removing `"hydro"` from `stTwoNoRescale`. -/
def stAfterZeroRemove : ContractState :=
  appliedState sim0 stTwoNoRescale env0 infoAdmin (.RemoveProtocol "hydro")

/-- C9 counterexample: the claim says any successful `RemoveProtocol`
leaving exactly one registered protocol forces that protocol's allocation
to exactly 1.  After the successful sequence AddProtocol("helix", 50%),
AddProtocol("hydro", 0%), RemoveProtocol("hydro"), exactly one protocol
remains but its allocation is still 0.5: a removed protocol with zero
allocation skips the redistribution loop entirely. -/
theorem remove_last_protocol_counterexample :
    execute sim0 stOneProto env0 infoAdmin (.AddProtocol "hydro" "a2" 0)
        = .ok (stTwoNoRescale, []) ∧
    (execute sim0 stTwoNoRescale env0 infoAdmin (.RemoveProtocol "hydro")).isOk
        = true ∧
    stAfterZeroRemove.protocols =
      [("helix", { name := "helix", contract_addr := "a1",
                   allocation_percentage := 500000000000000000,
                   current_balance := 0, enabled := true })] ∧
    (500000000000000000 : Nat) ≠ decimalOne := by
  decide

/-- C9 amended: after a successful `RemoveProtocol` that leaves exactly
one registered protocol, *provided* the removed protocol's allocation and
the remaining protocol's allocation were both nonzero, the remaining
protocol's allocation is set to exactly `Decimal::one()` (the
`protocol_names.len() == 1` special case of the redistribution loop). -/
theorem remove_last_protocol_allocation_one
    (sim : String → String → Nat → Nat) (s : ContractState) (env : Env)
    (info : MessageInfo) (name : String) (p q : ProtocolInfo) (qn : String)
    (s' : ContractState) (msgs : List CosmosMsg)
    (hok : execute sim s env info (.RemoveProtocol name) = .ok (s', msgs))
    (hp : lookupKV s.protocols name = some p)
    (hpa : p.allocation_percentage ≠ 0)
    (hrem : removeKV s.protocols name = [(qn, q)])
    (hq : q.allocation_percentage ≠ 0) :
    s'.protocols = [(qn, { q with allocation_percentage := decimalOne })] := by
  simp only [execute, execute_remove_protocol] at hok
  split at hok
  · simp at hok
  · rw [hp] at hok
    simp only at hok
    split at hok
    · simp at hok
    · rename_i msgs₀ hmsgs
      rw [hrem] at hok
      simp only [if_pos hpa] at hok
      have hsum : sumAllocs [(qn, q)] = q.allocation_percentage := by
        simp [sumAllocs]
      rw [hsum] at hok
      simp only [if_pos (And.intro hq (by simp : ((qn, q) :: [] : List (String × ProtocolInfo)) ≠ []))] at hok
      simp only [redistributeAllocations, List.map, List.length_cons,
        List.length_nil, if_neg hq] at hok
      simp only [Except.ok.injEq, Prod.mk.injEq] at hok
      obtain ⟨hs', _⟩ := hok
      subst hs'
      simp

/-- The state after removing `"hydro"` (allocation 75%) from the
two-protocol fixture. -/
def stAfterRemove : ContractState :=
  appliedState sim0 stTwoProtos env0 infoAdmin (.RemoveProtocol "hydro")

/-- The messages of that removal. -/
def removeMsgs : List CosmosMsg :=
  match execute sim0 stTwoProtos env0 infoAdmin (.RemoveProtocol "hydro") with
  | .ok (_, m) => m
  | .error _ => []

/-- Witness for the amended C9: removing `"hydro"` (75%, nonzero) from
the two-protocol fixture leaves `"helix"` (25%, nonzero) alone at exactly
1. -/
theorem remove_last_protocol_allocation_one_witness :
    stAfterRemove.protocols =
      [("helix", { name := "helix", contract_addr := "a1",
                   allocation_percentage := decimalOne,
                   current_balance := 100, enabled := true })] := by
  have h := remove_last_protocol_allocation_one sim0 stTwoProtos env0 infoAdmin
    "hydro"
    { name := "hydro", contract_addr := "a2",
      allocation_percentage := 750000000000000000,
      current_balance := 300, enabled := true }
    { name := "helix", contract_addr := "a1",
      allocation_percentage := 250000000000000000,
      current_balance := 100, enabled := true }
    "helix" stAfterRemove removeMsgs (by decide) (by decide) (by decide)
    (by decide) (by decide)
  exact h

/-! ## C5 — proportional withdrawal -/

/-- The per-protocol effect of a withdrawal pull: an enabled protocol's
balance drops by `amount.multiply_ratio(balance, total_protocol_balance)`
(saturating), a disabled one is untouched. -/
def withdrawUpd (amount total : Nat) (kv : String × ProtocolInfo) :
    String × ProtocolInfo :=
  if kv.2.enabled then
    (kv.1, { kv.2 with current_balance :=
               kv.2.current_balance - mulRatio amount kv.2.current_balance total })
  else kv

/-- Structure eta for `ProtocolInfo`, as a rewrite rule. -/
theorem protocolInfo_eta (p : ProtocolInfo) :
    ProtocolInfo.mk p.name p.contract_addr p.allocation_percentage
      p.current_balance p.enabled = p := rfl

/-- Characterization of the withdrawal pull loop on success: the protocol
list is pointwise updated by `withdrawUpd`, and every enabled protocol
with a nonzero pull has its adapter `withdraw` message in the output. -/
theorem withdrawFromProtocols_ok (amount total : Nat) :
    ∀ (l l' : List (String × ProtocolInfo)) (msgs : List CosmosMsg),
    withdrawFromProtocols amount total l = .ok (l', msgs) →
    l' = l.map (withdrawUpd amount total) ∧
    (∀ kv ∈ l, kv.2.enabled = true →
      mulRatio amount kv.2.current_balance total ≠ 0 →
      CosmosMsg.protocolWithdraw kv.1 kv.2.contract_addr
        (mulRatio amount kv.2.current_balance total) ∈ msgs) := by
  intro l
  induction l with
  | nil =>
    intro l' msgs h
    simp only [withdrawFromProtocols] at h
    injection h with hpair
    injection hpair with h1 h2
    subst h1; subst h2
    simp
  | cons kv rest ih =>
    intro l' msgs h
    obtain ⟨name, p⟩ := kv
    simp only [withdrawFromProtocols] at h
    by_cases hen : p.enabled = true
    · rw [if_pos hen] at h
      by_cases hz : mulRatio amount p.current_balance total = 0
      · rw [if_pos hz] at h
        cases hrest : withdrawFromProtocols amount total rest with
        | error e => rw [hrest] at h; exact absurd h (by simp)
        | ok pr =>
          obtain ⟨rest', rmsgs⟩ := pr
          rw [hrest] at h
          injection h with hpair
          injection hpair with h1 h2
          subst h1; subst h2
          obtain ⟨ihl, ihm⟩ := ih rest' rmsgs hrest
          subst ihl
          refine ⟨?_, ?_⟩
          · simp only [List.map_cons, withdrawUpd, hen, if_true, hz, Nat.sub_zero]
            rw [← hen]
          · intro kv hkv hkve hkvz
            rcases List.mem_cons.mp hkv with h' | h'
            · subst h'
              exact absurd hz hkvz
            · exact ihm kv h' hkve hkvz
      · rw [if_neg hz] at h
        by_cases hkt : knownProtocolType name = true
        · rw [if_pos hkt] at h
          cases hrest : withdrawFromProtocols amount total rest with
          | error e => rw [hrest] at h; exact absurd h (by simp)
          | ok pr =>
            obtain ⟨rest', rmsgs⟩ := pr
            rw [hrest] at h
            injection h with hpair
            injection hpair with h1 h2
            subst h1; subst h2
            obtain ⟨ihl, ihm⟩ := ih rest' rmsgs hrest
            subst ihl
            refine ⟨?_, ?_⟩
            · simp [withdrawUpd, hen]
            · intro kv hkv hkve hkvz
              rcases List.mem_cons.mp hkv with h' | h'
              · subst h'
                exact List.mem_cons_self _ _
              · exact List.mem_cons_of_mem _ (ihm kv h' hkve hkvz)
        · rw [if_neg hkt] at h
          exact absurd h (by simp)
    · rw [if_neg hen] at h
      cases hrest : withdrawFromProtocols amount total rest with
      | error e => rw [hrest] at h; exact absurd h (by simp)
      | ok pr =>
        obtain ⟨rest', rmsgs⟩ := pr
        rw [hrest] at h
        injection h with hpair
        injection hpair with h1 h2
        subst h1; subst h2
        obtain ⟨ihl, ihm⟩ := ih rest' rmsgs hrest
        subst ihl
        refine ⟨?_, ?_⟩
        · simp [withdrawUpd, hen]
        · intro kv hkv hkve hkvz
          rcases List.mem_cons.mp hkv with h' | h'
          · exfalso
            subst h'
            exact hen hkve
          · exact ihm kv h' hkve hkvz

/-- A successful conversion out of the base denom hands back a `bankSend`
or a `swap` message, never an adapter pull. -/
theorem safe_convert_from_usdc_no_pull
    (sim : String → String → Nat → Nat) (router d : String) (a m : Nat)
    (cm : CosmosMsg) (ca : Nat)
    (h : safe_convert_from_usdc sim router d a m = .ok (cm, ca)) :
    ∀ n ad b, cm ≠ CosmosMsg.protocolWithdraw n ad b := by
  intro n ad b
  unfold safe_convert_from_usdc at h
  split at h
  · exact absurd h (by simp)
  · cases hc : convert_from_usdc sim router d a m with
    | none => rw [hc] at h; exact absurd h (by simp)
    | some r =>
      rw [hc] at h
      injection h with hr
      subst hr
      unfold convert_from_usdc at hc
      by_cases hd : d = "usdc"
      · rw [if_pos hd] at hc
        injection hc with hr'
        injection hr' with h1 h2
        subst h1
        simp
      · rw [if_neg hd] at hc
        cases hcs : checkedSub 1000000 m with
        | none => rw [hcs] at hc; exact absurd hc (by simp)
        | some diff =>
          rw [hcs] at hc
          injection hc with hr'
          injection hr' with h1 h2
          subst h1
          simp

/-- C5: for every successful withdrawal of `amount` with at least one
registered protocol — if the enabled protocols' balances sum to zero, no
protocol pull is issued and the protocol ledger is untouched; otherwise
each enabled protocol is debited
`amount.multiply_ratio(balance, total_protocol_balance)` (saturating) and
each nonzero pull appears as an adapter `withdraw` message. -/
theorem withdraw_proportional_pulls
    (sim : String → String → Nat → Nat) (s : ContractState) (env : Env)
    (info : MessageInfo) (amount : Nat) (denomOpt : Option String)
    (s' : ContractState) (msgs : List CosmosMsg)
    (hok : execute sim s env info (.Withdraw amount denomOpt) = .ok (s', msgs))
    (_hne : s.protocols ≠ []) :
    (enabledBalanceSum s.protocols = 0 →
      s'.protocols = s.protocols ∧
      ∀ n ad b, CosmosMsg.protocolWithdraw n ad b ∉ msgs) ∧
    (enabledBalanceSum s.protocols ≠ 0 →
      s'.protocols = s.protocols.map (withdrawUpd amount (enabledBalanceSum s.protocols)) ∧
      ∀ kv ∈ s.protocols, kv.2.enabled = true →
        mulRatio amount kv.2.current_balance (enabledBalanceSum s.protocols) ≠ 0 →
        CosmosMsg.protocolWithdraw kv.1 kv.2.contract_addr
          (mulRatio amount kv.2.current_balance (enabledBalanceSum s.protocols)) ∈ msgs) := by
  simp only [execute, execute_withdraw] at hok
  split at hok
  · simp at hok
  · split at hok
    · simp at hok
    · split at hok
      · simp at hok
      · rename_i total' htot
        split at hok
        · simp at hok
        · rename_i protocols' pull_msgs hpull
          split at hok
          · simp at hok
          · rename_i tmsgs htail
            injection hok with hpair
            injection hpair with hs' hmsgs
            subst hs'
            subst hmsgs
            constructor
            · intro h0
              rw [if_pos h0] at hpull
              injection hpull with hpair'
              injection hpair' with hp1 hp2
              refine ⟨hp1.symm, ?_⟩
              intro n ad b hmem
              rw [← hp2] at hmem
              simp only [List.nil_append] at hmem
              split at htail
              · split at htail
                · exact absurd htail (by simp)
                · rename_i cm ca hconv
                  injection htail with htm
                  subst htm
                  rcases List.mem_cons.mp hmem with h' | h'
                  · exact safe_convert_from_usdc_no_pull _ _ _ _ _ _ _ hconv
                      n ad b h'.symm
                  · simp at h'
              · injection htail with htm
                subst htm
                simp at hmem
            · intro hT
              rw [if_neg hT] at hpull
              obtain ⟨hl, hm⟩ := withdrawFromProtocols_ok amount
                (enabledBalanceSum s.protocols) s.protocols protocols' pull_msgs hpull
              refine ⟨hl, ?_⟩
              intro kv hkv hkve hkvz
              exact List.mem_append_left _ (hm kv hkv hkve hkvz)

/-- The state after user `"u"` withdraws 40 from the two-protocol
fixture (balances 100 and 300). -/
def stAfterWd : ContractState :=
  appliedState sim0 stTwoProtos env0 infoU (.Withdraw 40 none)

/-- The messages of that withdrawal. -/
def wdMsgs : List CosmosMsg :=
  match execute sim0 stTwoProtos env0 infoU (.Withdraw 40 none) with
  | .ok (_, m) => m
  | .error _ => []

/-- Witness for C5, the claim's concrete instance: balances 100 and 300,
withdrawal of 40 — the pulls are `40 * 100 / 400 = 10` and
`40 * 300 / 400 = 30`. -/
theorem withdraw_proportional_pulls_witness :
    CosmosMsg.protocolWithdraw "helix" "a1" 10 ∈ wdMsgs ∧
    CosmosMsg.protocolWithdraw "hydro" "a2" 30 ∈ wdMsgs :=
  have h := (withdraw_proportional_pulls sim0 stTwoProtos env0 infoU 40 none
      stAfterWd wdMsgs (by decide) (by decide)).2 (by decide)
  ⟨h.2 ("helix", helixInfo) (by decide) (by decide) (by decide),
   h.2 ("hydro", hydroInfo) (by decide) (by decide) (by decide)⟩

/-! ## C6 — emergency withdrawal -/

/-- A successful checked subtraction is an exact `Nat` subtraction with
the order guarantee. -/
theorem checkedSub_some (a b c : Nat) (h : checkedSub a b = some c) :
    c = a - b ∧ b ≤ a := by
  unfold checkedSub at h
  split at h
  · injection h with h1
    exact ⟨h1.symm, by assumption⟩
  · exact absurd h (by simp)

/-- `setKV` makes the written binding the one `lookupKV` finds. -/
theorem lookupKV_setKV_self {α : Type} (l : List (String × α)) (k : String)
    (v : α) : lookupKV (setKV l k v) k = some v := by
  induction l with
  | nil => simp [setKV, lookupKV]
  | cons kv t ih =>
    by_cases hk : kv.1 = k
    · simp [setKV, lookupKV, hk]
    · obtain ⟨k₁, v₁⟩ := kv
      simp only at hk
      simp [setKV, lookupKV, hk, ih]

/-- The per-protocol effect of an emergency pull: an enabled protocol
with a nonzero balance is debited
`balance.multiply_ratio(user_share.numerator(), user_share.denominator())`
with `user_share = Decimal::from_ratio(user_total, total_value)`
(saturating); every other protocol is untouched. -/
def emergencyUpd (user_total total_value : Nat) (kv : String × ProtocolInfo) :
    String × ProtocolInfo :=
  let pull := mulRatio kv.2.current_balance (decFromRatio user_total total_value) DECIMAL_FRACTIONAL
  if kv.2.enabled ∧ kv.2.current_balance ≠ 0 then
    (kv.1, { kv.2 with current_balance := kv.2.current_balance - pull })
  else kv

/-- Characterization of the emergency pull loop on success. -/
theorem emergencyPulls_ok (userT total : Nat) :
    ∀ (l l' : List (String × ProtocolInfo)) (msgs : List CosmosMsg),
    emergencyPulls userT total l = .ok (l', msgs) →
    l' = l.map (emergencyUpd userT total) ∧
    (∀ kv ∈ l, kv.2.enabled = true → kv.2.current_balance ≠ 0 →
      mulRatio kv.2.current_balance (decFromRatio userT total) DECIMAL_FRACTIONAL ≠ 0 →
      CosmosMsg.protocolWithdraw kv.1 kv.2.contract_addr
        (mulRatio kv.2.current_balance (decFromRatio userT total) DECIMAL_FRACTIONAL)
        ∈ msgs) := by
  intro l
  induction l with
  | nil =>
    intro l' msgs h
    simp only [emergencyPulls] at h
    injection h with hpair
    injection hpair with h1 h2
    subst h1; subst h2
    simp
  | cons kv rest ih =>
    intro l' msgs h
    obtain ⟨name, p⟩ := kv
    simp only [emergencyPulls] at h
    by_cases hcond : p.enabled = true ∧ p.current_balance ≠ 0
    · rw [if_pos hcond] at h
      obtain ⟨hen, hnz⟩ := hcond
      by_cases ht : total = 0
      · rw [if_pos ht] at h
        exact absurd h (by simp)
      · rw [if_neg ht] at h
        by_cases hz : mulRatio p.current_balance (decFromRatio userT total)
            DECIMAL_FRACTIONAL = 0
        · rw [if_pos hz] at h
          cases hrest : emergencyPulls userT total rest with
          | error e => rw [hrest] at h; exact absurd h (by simp)
          | ok pr =>
            obtain ⟨rest', rmsgs⟩ := pr
            rw [hrest] at h
            injection h with hpair
            injection hpair with h1 h2
            subst h1; subst h2
            obtain ⟨ihl, ihm⟩ := ih rest' rmsgs hrest
            subst ihl
            refine ⟨?_, ?_⟩
            · have hupd : emergencyUpd userT total (name, p) = (name, p) := by
                unfold emergencyUpd
                rw [if_pos ⟨hen, hnz⟩, hz, Nat.sub_zero]
              rw [List.map_cons, hupd]
            · intro kv hkv hkve hkvb hkvz
              rcases List.mem_cons.mp hkv with h' | h'
              · subst h'
                exact absurd hz hkvz
              · exact ihm kv h' hkve hkvb hkvz
        · rw [if_neg hz] at h
          by_cases hkt : knownProtocolType name = true
          · rw [if_pos hkt] at h
            cases hrest : emergencyPulls userT total rest with
            | error e => rw [hrest] at h; exact absurd h (by simp)
            | ok pr =>
              obtain ⟨rest', rmsgs⟩ := pr
              rw [hrest] at h
              injection h with hpair
              injection hpair with h1 h2
              subst h1; subst h2
              obtain ⟨ihl, ihm⟩ := ih rest' rmsgs hrest
              subst ihl
              refine ⟨?_, ?_⟩
              · have hupd : emergencyUpd userT total (name, p) = (name, { p with current_balance := p.current_balance - mulRatio p.current_balance (decFromRatio userT total) DECIMAL_FRACTIONAL }) := by
                  unfold emergencyUpd
                  rw [if_pos ⟨hen, hnz⟩]
                rw [List.map_cons, hupd]
              · intro kv hkv hkve hkvb hkvz
                rcases List.mem_cons.mp hkv with h' | h'
                · subst h'
                  exact List.mem_cons_self _ _
                · exact List.mem_cons_of_mem _ (ihm kv h' hkve hkvb hkvz)
          · rw [if_neg hkt] at h
            exact absurd h (by simp)
    · rw [if_neg hcond] at h
      cases hrest : emergencyPulls userT total rest with
      | error e => rw [hrest] at h; exact absurd h (by simp)
      | ok pr =>
        obtain ⟨rest', rmsgs⟩ := pr
        rw [hrest] at h
        injection h with hpair
        injection hpair with h1 h2
        subst h1; subst h2
        obtain ⟨ihl, ihm⟩ := ih rest' rmsgs hrest
        subst ihl
        refine ⟨?_, ?_⟩
        · simp [emergencyUpd, hcond]
        · intro kv hkv hkve hkvb hkvz
          rcases List.mem_cons.mp hkv with h' | h'
          · exfalso
            subst h'
            exact hcond ⟨hkve, hkvb⟩
          · exact ihm kv h' hkve hkvb hkvz

/-- C6: a successful `EmergencyWithdraw` by a user holding `T` pays the
user `T - fee` in the base denom with
`fee = T.multiply_ratio(emergency_withdrawal_fee)`; resets the user's
`total_usdc_value` to zero; debits `TOTAL_USDC_VALUE` by `T`; and, when
protocols are registered, debits each enabled protocol with nonzero
balance by `balance.multiply_ratio(Decimal::from_ratio(T, TotalValue))`,
emitting one adapter `withdraw` message per nonzero pull. -/
theorem emergency_withdraw_spec
    (sim : String → String → Nat → Nat) (s : ContractState) (env : Env)
    (info : MessageInfo) (s' : ContractState) (msgs : List CosmosMsg)
    (hok : execute sim s env info .EmergencyWithdraw = .ok (s', msgs)) :
    CosmosMsg.bankSend info.sender s.config.base_denom
      (((lookupKV s.user_infos info.sender).getD emptyUserInfo).total_usdc_value -
        mulRatio ((lookupKV s.user_infos info.sender).getD emptyUserInfo).total_usdc_value
          s.risk_parameters.emergency_withdrawal_fee DECIMAL_FRACTIONAL) ∈ msgs ∧
    lookupKV s'.user_infos info.sender =
      some { (lookupKV s.user_infos info.sender).getD emptyUserInfo with
               total_usdc_value := 0 } ∧
    s'.total_usdc_value +
        ((lookupKV s.user_infos info.sender).getD emptyUserInfo).total_usdc_value
      = s.total_usdc_value ∧
    (s.protocols ≠ [] →
      s'.protocols = s.protocols.map
        (emergencyUpd
          ((lookupKV s.user_infos info.sender).getD emptyUserInfo).total_usdc_value
          s.total_usdc_value) ∧
      ∀ kv ∈ s.protocols, kv.2.enabled = true → kv.2.current_balance ≠ 0 →
        mulRatio kv.2.current_balance
          (decFromRatio
            ((lookupKV s.user_infos info.sender).getD emptyUserInfo).total_usdc_value
            s.total_usdc_value) DECIMAL_FRACTIONAL ≠ 0 →
        CosmosMsg.protocolWithdraw kv.1 kv.2.contract_addr
          (mulRatio kv.2.current_balance
            (decFromRatio
              ((lookupKV s.user_infos info.sender).getD emptyUserInfo).total_usdc_value
              s.total_usdc_value) DECIMAL_FRACTIONAL) ∈ msgs) := by
  simp only [execute, execute_emergency_withdraw] at hok
  split at hok
  · simp at hok
  · split at hok
    · simp at hok
    · rename_i payout hpay
      split at hok
      · simp at hok
      · rename_i protocols' pull_msgs hpull
        split at hok
        · simp at hok
        · rename_i total' htot
          injection hok with hpair
          injection hpair with hs' hmsgs
          subst hs'
          subst hmsgs
          obtain ⟨hpayv, _⟩ := checkedSub_some _ _ _ hpay
          subst hpayv
          obtain ⟨htotv, htotle⟩ := checkedSub_some _ _ _ htot
          refine ⟨?_, ?_, ?_, ?_⟩
          · exact List.mem_append_right _ (by simp)
          · exact lookupKV_setKV_self _ _ _
          · dsimp only
            omega
          · intro hne
            rw [if_neg hne] at hpull
            obtain ⟨hl, hm⟩ := emergencyPulls_ok _ _ s.protocols protocols'
              pull_msgs hpull
            refine ⟨hl, ?_⟩
            intro kv hkv hkve hkvb hkvz
            exact List.mem_append_left _ (hm kv hkv hkve hkvb hkvz)

/-- A fixture protocol for the emergency scenario: `"helix"` at 100%
holding the whole balance of 100. -/
def helixFull : ProtocolInfo :=
  { name := "helix", contract_addr := "a1",
    allocation_percentage := decimalOne,
    current_balance := 100, enabled := true }

/-- The emergency scenario state: user `"u"` holds 100, one protocol
holds 100, `TOTAL_USDC_VALUE = 100`, emergency fee 1%. -/
def stEmg : ContractState :=
  { st0 with
      protocols := [("helix", helixFull)]
      user_infos := [("u", { total_usdc_value := 100, deposits := [] })]
      total_usdc_value := 100 }

/-- The state after `"u"`'s emergency withdrawal. -/
def stAfterEw : ContractState :=
  appliedState sim0 stEmg env0 infoU .EmergencyWithdraw

/-- The messages of that emergency withdrawal. -/
def ewMsgs : List CosmosMsg :=
  match execute sim0 stEmg env0 infoU .EmergencyWithdraw with
  | .ok (_, m) => m
  | .error _ => []

/-- Witness for C6, the claim's concrete instance: `T = 100`, fee 1% —
fee 1, payout 99, the user's `total_usdc_value` is 0 afterwards,
`TOTAL_USDC_VALUE` drops by 100, and the single enabled protocol is
pulled its full 100 (the user's share of `TotalValue` is 1). -/
theorem emergency_withdraw_spec_witness :
    CosmosMsg.bankSend "u" "usdc" 99 ∈ ewMsgs ∧
    lookupKV stAfterEw.user_infos "u" = some { total_usdc_value := 0, deposits := [] } ∧
    stAfterEw.total_usdc_value + 100 = 100 ∧
    CosmosMsg.protocolWithdraw "helix" "a1" 100 ∈ ewMsgs :=
  have h := emergency_withdraw_spec sim0 stEmg env0 infoU stAfterEw ewMsgs (by decide)
  ⟨h.1, h.2.1, h.2.2.1,
   (h.2.2.2 (by decide)).2 ("helix", helixFull) (by decide) (by decide)
     (by decide) (by decide)⟩

/-! ## C7 — `TotalValue = Σ UserInfo.total_usdc_value` -/

/-- The ledger-wide identity of the spec: the stored `TOTAL_USDC_VALUE`
equals the sum of `total_usdc_value` over all stored `UserInfo`
records. -/
def ledgerIdentity (s : ContractState) : Prop :=
  s.total_usdc_value = sumUserValues s.user_infos

instance (s : ContractState) : Decidable (ledgerIdentity s) := by
  unfold ledgerIdentity
  infer_instance

/-- Writing a user record trades its old value for the new one inside the
ledger sum, whether or not a binding existed. -/
theorem sumUserValues_setKV (l : List (String × UserInfo)) (k : String)
    (v : UserInfo) :
    sumUserValues (setKV l k v) +
        ((lookupKV l k).getD emptyUserInfo).total_usdc_value
      = sumUserValues l + v.total_usdc_value := by
  induction l with
  | nil => simp [setKV, lookupKV, sumUserValues, emptyUserInfo]
  | cons kv t ih =>
    obtain ⟨k₁, v₁⟩ := kv
    by_cases hk : k₁ = k
    · simp only [setKV, lookupKV, if_pos hk, sumUserValues, List.map_cons,
        List.sum_cons, Option.getD_some]
      omega
    · simp only [setKV, lookupKV, if_neg hk, sumUserValues, List.map_cons,
        List.sum_cons]
      simp only [sumUserValues] at ih
      omega

/-- A user's stored value never exceeds the ledger sum. -/
theorem lookupKV_getD_le_sumUserValues (l : List (String × UserInfo))
    (k : String) :
    ((lookupKV l k).getD emptyUserInfo).total_usdc_value ≤ sumUserValues l := by
  induction l with
  | nil => simp [lookupKV, sumUserValues, emptyUserInfo]
  | cons kv t ih =>
    obtain ⟨k₁, v₁⟩ := kv
    by_cases hk : k₁ = k
    · simp only [lookupKV, if_pos hk, Option.getD_some, sumUserValues,
        List.map_cons, List.sum_cons]
      omega
    · simp only [lookupKV, if_neg hk, sumUserValues, List.map_cons,
        List.sum_cons]
      simp only [sumUserValues] at ih
      omega

/-- C7: the identity `TOTAL_USDC_VALUE = Σ UserInfo.total_usdc_value`
holds after instantiation and is preserved by every successful execute
operation: `Deposit` adds the credited value to both sides, `Withdraw`
and `EmergencyWithdraw` debit both sides equally, and every other
operation touches neither the user map nor the stored total. -/
theorem totalValue_ledger_identity :
    (∀ m : InstantiateMsg, ledgerIdentity (instantiate m)) ∧
    (∀ (sim : String → String → Nat → Nat) (s : ContractState) (env : Env)
       (info : MessageInfo) (msg : ExecuteMsg) (s' : ContractState)
       (msgs : List CosmosMsg),
       ledgerIdentity s → execute sim s env info msg = .ok (s', msgs) →
       ledgerIdentity s') := by
  constructor
  · intro m
    simp [ledgerIdentity, instantiate, sumUserValues]
  · intro sim s env info msg s' msgs hInv hok
    cases msg with
    | Deposit =>
      simp only [execute, execute_deposit] at hok
      split at hok
      · simp at hok
      · rename_i denom amount restFunds hfunds
        split at hok
        · simp at hok
        · split at hok
          · simp at hok
          · split at hok
            · simp at hok
            · rename_i cm usdc_value hconv
              split at hok
              · simp at hok
              · rename_i protocols' dmsgs hdist
                injection hok with hpair
                injection hpair with hs' hmsgs
                subst hs'
                have hset := sumUserValues_setKV s.user_infos info.sender
                  { total_usdc_value :=
                      ((lookupKV s.user_infos info.sender).getD emptyUserInfo).total_usdc_value
                        + usdc_value
                    deposits :=
                      ((lookupKV s.user_infos info.sender).getD emptyUserInfo).deposits ++
                        [{ original_token := denom, original_amount := amount,
                           usdc_value_at_deposit := usdc_value,
                           timestamp := env.block_time }] }
                unfold ledgerIdentity at hInv ⊢
                dsimp only at *
                omega
    | Withdraw amount denomOpt =>
      simp only [execute, execute_withdraw] at hok
      split at hok
      · simp at hok
      · split at hok
        · simp at hok
        · rename_i hins
          split at hok
          · simp at hok
          · rename_i total' htot
            split at hok
            · simp at hok
            · rename_i protocols' pull_msgs hpull
              split at hok
              · simp at hok
              · rename_i tmsgs htail
                injection hok with hpair
                injection hpair with hs' hmsgs
                subst hs'
                obtain ⟨htotv, htotle⟩ := checkedSub_some _ _ _ htot
                subst htotv
                have hset := sumUserValues_setKV s.user_infos info.sender
                  { (lookupKV s.user_infos info.sender).getD emptyUserInfo with
                      total_usdc_value :=
                        ((lookupKV s.user_infos info.sender).getD emptyUserInfo).total_usdc_value
                          - amount }
                have hle := lookupKV_getD_le_sumUserValues s.user_infos info.sender
                unfold ledgerIdentity at hInv ⊢
                dsimp only at *
                omega
    | EmergencyWithdraw =>
      simp only [execute, execute_emergency_withdraw] at hok
      split at hok
      · simp at hok
      · rename_i hnz
        split at hok
        · simp at hok
        · rename_i payout hpay
          split at hok
          · simp at hok
          · rename_i protocols' pull_msgs hpull
            split at hok
            · simp at hok
            · rename_i total' htot
              injection hok with hpair
              injection hpair with hs' hmsgs
              subst hs'
              obtain ⟨htotv, htotle⟩ := checkedSub_some _ _ _ htot
              subst htotv
              have hset := sumUserValues_setKV s.user_infos info.sender
                { (lookupKV s.user_infos info.sender).getD emptyUserInfo with
                    total_usdc_value := 0 }
              have hle := lookupKV_getD_le_sumUserValues s.user_infos info.sender
              unfold ledgerIdentity at hInv ⊢
              dsimp only at *
              omega
    | AddProtocol name contract_addr initial_allocation =>
      simp only [execute, execute_add_protocol] at hok
      split at hok
      · simp at hok
      · split at hok
        · simp at hok
        · split at hok
          · simp at hok
          · split at hok
            · simp at hok
            · split at hok
              · split at hok
                · simp at hok
                · rename_i remaining hrem
                  injection hok with hpair
                  injection hpair with hs' hmsgs
                  subst hs'
                  exact hInv
              · injection hok with hpair
                injection hpair with hs' hmsgs
                subst hs'
                exact hInv
    | RemoveProtocol name =>
      simp only [execute, execute_remove_protocol] at hok
      split at hok
      · simp at hok
      · split at hok
        · simp at hok
        · rename_i protocol hp
          split at hok
          · simp at hok
          · rename_i messages hmsgs₀
            injection hok with hpair
            injection hpair with hs' hmsgs
            subst hs'
            exact hInv
    | UpdateProtocol name enabled contract_addr =>
      simp only [execute, execute_update_protocol] at hok
      split at hok
      · simp at hok
      · split at hok
        · simp at hok
        · rename_i protocol hp
          injection hok with hpair
          injection hpair with hs' hmsgs
          subst hs'
          exact hInv
    | Rebalance target_allocations reason =>
      simp only [execute, execute_rebalance, strategyExecuteRebalance] at hok
      split at hok
      · simp at hok
      · split at hok
        · simp at hok
        · split at hok
          · simp at hok
          · split at hok
            · simp at hok
            · split at hok
              · simp at hok
              · rename_i protocols' happ
                injection hok with hpair
                injection hpair with hs' hmsgs
                subst hs'
                exact hInv
    | UpdateRiskParameters rp =>
      simp only [execute, execute_update_risk_parameters] at hok
      split at hok
      · simp at hok
      · injection hok with hpair
        injection hpair with hs' hmsgs
        subst hs'
        exact hInv
    | AddSupportedToken denom =>
      simp only [execute, execute_add_supported_token] at hok
      split at hok
      · simp at hok
      · split at hok
        · injection hok with hpair
          injection hpair with hs' hmsgs
          subst hs'
          exact hInv
        · injection hok with hpair
          injection hpair with hs' hmsgs
          subst hs'
          exact hInv
    | RemoveSupportedToken denom =>
      simp only [execute, execute_remove_supported_token] at hok
      split at hok
      · simp at hok
      · split at hok
        · simp at hok
        · split at hok
          · injection hok with hpair
            injection hpair with hs' hmsgs
            subst hs'
            exact hInv
          · injection hok with hpair
            injection hpair with hs' hmsgs
            subst hs'
            exact hInv
    | UpdateAdmin admin =>
      simp only [execute, execute_update_admin] at hok
      split at hok
      · simp at hok
      · injection hok with hpair
        injection hpair with hs' hmsgs
        subst hs'
        exact hInv
    | UpdateAiOperator op =>
      simp only [execute, execute_update_ai_operator] at hok
      split at hok
      · simp at hok
      · injection hok with hpair
        injection hpair with hs' hmsgs
        subst hs'
        exact hInv

/-- The state after user `"u1"` deposits 100 `"usdc"` into the fresh
contract. -/
def stAfterDep : ContractState :=
  appliedState sim0 st0 env0 { sender := "u1", funds := [("usdc", 100)] } .Deposit

/-- The messages of that deposit. -/
def depMsgs : List CosmosMsg :=
  match execute sim0 st0 env0 { sender := "u1", funds := [("usdc", 100)] } .Deposit with
  | .ok (_, m) => m
  | .error _ => []

/-- Witness for C7: the identity holds on the freshly instantiated state
and is preserved by a concrete successful deposit of 100 `"usdc"`. -/
theorem totalValue_ledger_identity_witness :
    ledgerIdentity st0 ∧ ledgerIdentity stAfterDep :=
  ⟨totalValue_ledger_identity.1 m0,
   totalValue_ledger_identity.2 sim0 st0 env0
     { sender := "u1", funds := [("usdc", 100)] } .Deposit stAfterDep depMsgs
     (by decide) (by decide)⟩

end AstroBalance
